import Mathlib

/-!
Verification development for the TADI dependency injector (`tadi.py`).

The embedding models the Python runtime facts the injector relies on:

* a `World` is the ambient set of Python classes: each class identity
  (a `ClassId`, modelling object identity of the class object) carries its
  `__name__`, the list of its ancestors (its MRO, used by `issubclass` /
  `isinstance`), and the annotation items of its `__init__`
  (`inspect.getfullargspec(cls.__init__).annotations.items()`, in order,
  possibly including the `"return"` placeholder);
* a `Value` is a Python object: either a class object (`Value.cls`) or an
  instance (`Value.obj`), which records the identity of the allocation
  (`addr`, a fresh number drawn from an allocation counter threaded through
  `resolve`; two instances are the same Python object exactly when their
  addresses coincide) together with its class and the keyword arguments its
  constructor received;
* `isinstance` on a class object is true exactly for `object` and `type`
  (custom metaclasses are outside the model, the repository uses none).

The `Injector` state and every method (`implementation`, `interface`,
`_register_interface`, `register_scoped`, `register_singleton`, `resolve`,
`resolve_callable`) are translated line by line from the source.  Python
exceptions become `Except InjectorError`; the registration methods are
translated in state-threading style (`... × Injector`) so that the absence
of partial mutation before a raise is a provable fact rather than an
assumption.  `resolve`'s recursion is bounded in Python by the cycle check
on the stack; the embedding makes it total with a fuel parameter, the
wrapper supplies `fuelBound` fuel and `resolve_fuel_sufficient`-style
lemmas below prove the `outOfFuel` outcome unreachable.
-/

/-- Identity of a Python class object. -/
abbrev ClassId := Nat

/-- A constructor / callable parameter annotation: in the source it is either
a forward-referenced name (a `str`) or a live class handle (a `type`). -/
inductive Annot where
  | str (s : String)
  | ty (c : ClassId)
deriving DecidableEq

/-- The reflection data of one Python class: its `__name__`, its ancestors
(the classes `c` for which `issubclass(self, c)` holds; includes the class
itself and `object`), and the annotation items of its `__init__`. -/
structure ClassDecl where
  name : String
  ancestors : List ClassId
  ctorAnnots : List (String × Annot)
deriving DecidableEq

/-- The ambient Python class environment. -/
structure World where
  classes : ClassId → ClassDecl
  objectId : ClassId
  typeId : ClassId

/-- A Python value as far as the injector can observe it: a class object or
an instance.  The `addr` of an instance models its object identity. -/
inductive Value where
  | cls (c : ClassId)
  | obj (addr : Nat) (c : ClassId) (attrs : List (String × Value))

mutual

/-- Decidable equality for `Value` (the automatic derivation does not handle
the nesting through `List (String × Value)`). -/
def Value.decEq : (v w : Value) → Decidable (v = w)
  | .cls c1, .cls c2 =>
    if h : c1 = c2 then isTrue (by rw [h]) else isFalse (by intro he; cases he; exact h rfl)
  | .cls _, .obj _ _ _ => isFalse (by intro he; cases he)
  | .obj _ _ _, .cls _ => isFalse (by intro he; cases he)
  | .obj a1 c1 at1, .obj a2 c2 at2 =>
    if h1 : a1 = a2 then
      if h2 : c1 = c2 then
        match attrsDecEq at1 at2 with
        | isTrue h3 => isTrue (by rw [h1, h2, h3])
        | isFalse h3 => isFalse (by intro he; cases he; exact h3 rfl)
      else isFalse (by intro he; cases he; exact h2 rfl)
    else isFalse (by intro he; cases he; exact h1 rfl)

/-- Decidable equality for attribute lists, mutual with `Value.decEq`. -/
def attrsDecEq : (a b : List (String × Value)) → Decidable (a = b)
  | [], [] => isTrue rfl
  | [], _ :: _ => isFalse (by intro he; cases he)
  | _ :: _, [] => isFalse (by intro he; cases he)
  | (n1, v1) :: r1, (n2, v2) :: r2 =>
    if h1 : n1 = n2 then
      match Value.decEq v1 v2 with
      | isTrue h2 =>
        match attrsDecEq r1 r2 with
        | isTrue h3 => isTrue (by rw [h1, h2, h3])
        | isFalse h3 => isFalse (by intro he; cases he; exact h3 rfl)
      | isFalse h2 => isFalse (by intro he; cases he; exact h2 rfl)
    else isFalse (by intro he; cases he; exact h1 rfl)

end

instance : DecidableEq Value := Value.decEq

/-- The error taxonomy of the source (plus `outOfFuel`, the artefact of the
fuel-based embedding of `resolve`, proved unreachable below).
`valueError` is the plain `ValueError` raised by `resolve_callable`. -/
inductive InjectorError where
  | cyclicDependency (interface : String) (stack : List String)
  | implemented (interface : String)
  | mismatch (implementation : String) (interface : String)
  | unimplemented (interface : String)
  | valueError (msg : String)
  | outOfFuel
deriving DecidableEq

/-- First-match lookup in an association list: the translation of the
`for k, v in list: if k == target` loops and of `dict` indexing (dict
entries are appended in insertion order and keys are unique). -/
def lookupList {α β : Type} [BEq α] : List (α × β) → α → Option β
  | [], _ => none
  | (key, val) :: rest, target =>
    if key == target then some val else lookupList rest target

/-- Python `issubclass(c, i)`. -/
def issubclass (W : World) (c i : ClassId) : Bool :=
  (W.classes c).ancestors.contains i

/-- Python `isinstance(v, i)`.  A class object is an instance of `object`
and of `type` only (no custom metaclasses in the model). -/
def isinstance (W : World) (v : Value) (i : ClassId) : Bool :=
  match v with
  | .cls _ => i == W.objectId || i == W.typeId
  | .obj _ c _ => (W.classes c).ancestors.contains i

/-- Python `v.__class__.__name__`. -/
def Value.className (W : World) : Value → String
  | .cls _ => "type"
  | .obj _ c _ => (W.classes c).name

/-- The state of an `Injector`: `self.interfaces` (a `dict` from name to
interface class), `self.scoped_services` and `self.singleton_services`. -/
structure Injector where
  interfaces : List (String × ClassId)
  scoped_services : List (ClassId × ClassId)
  singleton_services : List (ClassId × Value)
deriving DecidableEq

/-- `Injector.__init__`: all three structures empty. -/
def Injector.init : Injector := ⟨[], [], []⟩

/-- `Injector.implementation`: scan the scoped table first, then the
singleton table, raising `UnimplementedError(interface.__name__)` when
neither holds the interface.  A scoped hit returns the implementation
class object. -/
def Injector.implementation (W : World) (inj : Injector) (interface : ClassId) :
    Except InjectorError Value :=
  match lookupList inj.scoped_services interface with
  | some tv => .ok (.cls tv)
  | none =>
    match lookupList inj.singleton_services interface with
    | some av => .ok av
    | none => .error (.unimplemented (W.classes interface).name)

/-- The name under which an annotation refers to an interface: the string
itself, or `__name__` of the class handle (the `isinstance(interface_id,
type)` branch of `Injector.interface`). -/
def Annot.nameOf (W : World) : Annot → String
  | .str s => s
  | .ty c => (W.classes c).name

/-- `Injector.interface`: resolve a textual or type-based identifier through
`self.interfaces`, raising `UnimplementedError` when the name is unknown.
(The `TypeError` branch for identifiers that are neither `str` nor `type`
is unreachable here because `Annot` only has those two forms.) -/
def Injector.interface (W : World) (inj : Injector) (interface_id : Annot) :
    Except InjectorError ClassId :=
  match lookupList inj.interfaces (interface_id.nameOf W) with
  | some t => .ok t
  | none => .error (.unimplemented (interface_id.nameOf W))

/-- `Injector._register_interface`: raise `ImplementedError` when the name is
already a key of `self.interfaces`, otherwise add the entry.  The pair
result carries the state after the call — unchanged on the error path. -/
def Injector.register_interface (W : World) (inj : Injector) (interface : ClassId) :
    Except InjectorError Unit × Injector :=
  if (lookupList inj.interfaces (W.classes interface).name).isSome then
    (.error (.implemented (W.classes interface).name), inj)
  else
    (.ok (), { inj with
      interfaces := inj.interfaces ++ [((W.classes interface).name, interface)] })

/-- `Injector.register_scoped`: the `issubclass` conformance check comes
first, then `_register_interface`, then the append to the scoped table. -/
def Injector.register_scopedS (W : World) (inj : Injector)
    (interface implementation : ClassId) : Except InjectorError Unit × Injector :=
  if ¬ issubclass W implementation interface then
    (.error (.mismatch (W.classes implementation).name (W.classes interface).name), inj)
  else
    match inj.register_interface W interface with
    | (.error e, inj') => (.error e, inj')
    | (.ok _, inj') =>
      (.ok (), { inj' with
        scoped_services := inj'.scoped_services ++ [(interface, implementation)] })

/-- `Injector.register_singleton`: the `isinstance` conformance check comes
first, then `_register_interface`, then the append to the singleton table. -/
def Injector.register_singletonS (W : World) (inj : Injector)
    (interface : ClassId) (singleton : Value) : Except InjectorError Unit × Injector :=
  if ¬ isinstance W singleton interface then
    (.error (.mismatch (singleton.className W) (W.classes interface).name), inj)
  else
    match inj.register_interface W interface with
    | (.error e, inj') => (.error e, inj')
    | (.ok _, inj') =>
      (.ok (), { inj' with
        singleton_services := inj'.singleton_services ++ [(interface, singleton)] })

/-- Convenience form of `register_scoped` returning the new state on success. -/
def Injector.register_scoped (W : World) (inj : Injector)
    (interface implementation : ClassId) : Except InjectorError Injector :=
  match inj.register_scopedS W interface implementation with
  | (.ok _, inj') => .ok inj'
  | (.error e, _) => .error e

/-- Convenience form of `register_singleton` returning the new state on
success. -/
def Injector.register_singleton (W : World) (inj : Injector)
    (interface : ClassId) (singleton : Value) : Except InjectorError Injector :=
  match inj.register_singletonS W interface singleton with
  | (.ok _, inj') => .ok inj'
  | (.error e, _) => .error e

/-- The `for parametername, parametertype in annotations.items()` loop of
`resolve`: skip `"return"`, look the annotation up through
`Injector.interface`, resolve it through `res` (the recursive call with the
extended stack), and collect the keyword arguments in order.  The
allocation counter is threaded left to right. -/
def resolveParams (W : World) (inj : Injector)
    (res : ClassId → Nat → Except InjectorError (Value × Nat)) :
    List (String × Annot) → Nat → Except InjectorError (List (String × Value) × Nat)
  | [], k => .ok ([], k)
  | (pn, pt) :: rest, k =>
    if pn = "return" then resolveParams W inj res rest k
    else
      match inj.interface W pt with
      | .error e => .error e
      | .ok t =>
        match res t k with
        | .error e => .error e
        | .ok (v, k1) =>
          match resolveParams W inj res rest k1 with
          | .error e => .error e
          | .ok (kvs, k2) => .ok ((pn, v) :: kvs, k2)

/-- `Injector.resolve`, fuel-based body.  Faithful to the source order:
look up the implementation (may raise `UnimplementedError`); a non-type
binding (a singleton instance) is returned immediately; then the cycle
check (`stack is not None and interface in stack`); then the annotation
loop with stack `stack + [interface]` (or `[interface]` from the
top-level `None`); finally `implementation(**kwargs)`, which allocates a
fresh instance. -/
def resolveGo (W : World) (inj : Injector) :
    Nat → ClassId → Option (List ClassId) → Nat → Except InjectorError (Value × Nat)
  | 0, _, _, _ => .error .outOfFuel
  | fuel + 1, interface, stack, k =>
    match inj.implementation W interface with
    | .error e => .error e
    | .ok impl =>
      match impl with
      | .obj a c attrs => .ok (.obj a c attrs, k)
      | .cls c =>
        match stack with
        | some st =>
          if interface ∈ st then
            .error (.cyclicDependency (W.classes interface).name
              (st.map (fun x => (W.classes x).name)))
          else
            match resolveParams W inj
                (fun t k1 => resolveGo W inj fuel t (some (st ++ [interface])) k1)
                (W.classes c).ctorAnnots k with
            | .error e => .error e
            | .ok (kwargs, kp) => .ok (.obj kp c kwargs, kp + 1)
        | none =>
          match resolveParams W inj
              (fun t k1 => resolveGo W inj fuel t (some [interface]) k1)
              (W.classes c).ctorAnnots k with
          | .error e => .error e
          | .ok (kwargs, kp) => .ok (.obj kp c kwargs, kp + 1)

/-- Fuel sufficient for any resolution: the recursion stack only ever holds
pairwise distinct interfaces that have a binding, so its depth is bounded
by the total number of bindings. -/
def Injector.fuelBound (inj : Injector) : Nat :=
  inj.scoped_services.length + inj.singleton_services.length + 1

/-- `Injector.resolve` called at the public surface (`stack=None`). -/
def Injector.resolve (W : World) (inj : Injector) (interface : ClassId) (k : Nat) :
    Except InjectorError (Value × Nat) :=
  resolveGo W inj inj.fuelBound interface none k

/-- An argument handed to `resolve_callable`: whether `callable(fn)` holds,
an identity tag for the invocable, and
`inspect.getfullargspec(fn).annotations.items()` in order. -/
structure Arg where
  callable : Bool
  tag : Nat
  annots : List (String × Annot)
deriving DecidableEq

/-- The zero-argument invocable returned by `resolve_callable`: the
`lambda: fn(**kwargs)` closure, capturing `fn` and the pre-resolved
keyword arguments. -/
structure Closure where
  fn : Arg
  kwargs : List (String × Value)
deriving DecidableEq

/-- Observable effect of invoking the closure: the original invocable is
called with the captured arguments bound by name. -/
structure CallEvent where
  fn : Nat
  args : List (String × Value)
deriving DecidableEq

/-- Invoking the closure: calls `fn(**kwargs)`.  The injector performs no
resolution and constructs no instance here, so the allocation counter is
untouched. -/
def Closure.invoke (cl : Closure) (k : Nat) : CallEvent × Nat :=
  ({ fn := cl.fn.tag, args := cl.kwargs }, k)

/-- Invoke the closure `n` times in sequence, collecting the call events. -/
def Closure.invokeTimes (cl : Closure) : Nat → Nat → List CallEvent × Nat
  | 0, k => ([], k)
  | n + 1, k =>
    let (e, k1) := cl.invoke k
    let (es, k2) := cl.invokeTimes n k1
    (e :: es, k2)

/-- The `for` loop of `resolve_callable`: like the constructor loop but each
parameter is resolved by a fresh top-level `self.resolve(...)` call
(`stack=None`). -/
def resolveArgsLoop (W : World) (inj : Injector) :
    List (String × Annot) → Nat → Except InjectorError (List (String × Value) × Nat)
  | [], k => .ok ([], k)
  | (pn, pt) :: rest, k =>
    if pn = "return" then resolveArgsLoop W inj rest k
    else
      match inj.interface W pt with
      | .error e => .error e
      | .ok t =>
        match inj.resolve W t k with
        | .error e => .error e
        | .ok (v, k1) =>
          match resolveArgsLoop W inj rest k1 with
          | .error e => .error e
          | .ok (kvs, k2) => .ok ((pn, v) :: kvs, k2)

/-- `Injector.resolve_callable`: reject non-invocables with `ValueError`,
resolve each annotated parameter once, and return the capturing closure. -/
def Injector.resolve_callable (W : World) (inj : Injector) (fn : Arg) (k : Nat) :
    Except InjectorError (Closure × Nat) :=
  if ¬ fn.callable then .error (.valueError "The argument must be callable")
  else
    match resolveArgsLoop W inj fn.annots k with
    | .error e => .error e
    | .ok (kwargs, k') => .ok ({ fn := fn, kwargs := kwargs }, k')

/-! ## Fuel adequacy -/

/-- All interfaces holding a binding (with multiplicity; the recursion stack
only ever holds distinct members of this list). -/
def keysList (inj : Injector) : List ClassId :=
  inj.scoped_services.map Prod.fst ++ inj.singleton_services.map Prod.fst

/-- Enough fuel for the given stack: the number of bindings not yet on the
stack, plus one for the current level. -/
def fuelOK (inj : Injector) : Option (List ClassId) → Nat → Prop
  | none, fuel => (keysList inj).length + 1 ≤ fuel
  | some l, fuel => l.Nodup ∧ (∀ x ∈ l, x ∈ keysList inj) ∧
      ((keysList inj).filter (fun x => decide (x ∉ l))).length + 1 ≤ fuel

/-! ## Allocation addresses -/

mutual

/-- All instance addresses occurring in a value (the value's own allocation
and, recursively, those of its attributes). -/
def Value.addrs : Value → List Nat
  | .cls _ => []
  | .obj a _ attrs => a :: addrsOfAttrs attrs

/-- Addresses of a keyword-argument list, mutual with `Value.addrs`. -/
def addrsOfAttrs : List (String × Value) → List Nat
  | [] => []
  | (_, v) :: rest => v.addrs ++ addrsOfAttrs rest

end

/-- Addresses of a plain list of values. -/
def addrsOfValues : List Value → List Nat
  | [] => []
  | v :: rest => v.addrs ++ addrsOfValues rest

/-- Addresses held inside registered singleton instances: these may surface
in resolution results without having been allocated by the resolver. -/
def storedAddrs (inj : Injector) : List Nat :=
  addrsOfValues (inj.singleton_services.map Prod.snd)

/-! ## Counter monotonicity and address freshness -/

/-- Range discipline for a resolver: the counter never decreases, and every
address in the result is either freshly allocated (within the counter
interval of the call) or originates from a stored singleton. -/
def RangeOK (inj : Injector)
    (res : ClassId → Nat → Except InjectorError (Value × Nat)) : Prop :=
  ∀ t k v k', res t k = .ok (v, k') →
    k ≤ k' ∧ ∀ a ∈ v.addrs, (k ≤ a ∧ a < k') ∨ a ∈ storedAddrs inj

/-- The error constructors `resolve` can actually produce. -/
def IsResolveErr (e : InjectorError) : Prop :=
  (∃ n, e = .unimplemented n) ∨ (∃ n ns, e = .cyclicDependency n ns) ∨ e = .outOfFuel

/-- The resolver can succeed on interface `i` in some context. -/
def Succeeds (W : World) (inj : Injector) (i : ClassId) : Prop :=
  ∃ fuel st k v k', resolveGo W inj fuel i st k = .ok (v, k')

/-- `Requires W inj i j`: starting from a request for `i`, the resolver's
depth-first walk can reach a request for `j` by following (non-return)
constructor annotations of looked-up implementations.  This is the formal
reading of "`j` is required transitively somewhere in `i`'s dependency
chain". -/
inductive Requires (W : World) (inj : Injector) : ClassId → ClassId → Prop where
  | refl (i : ClassId) : Requires W inj i i
  | step {i j c : ClassId} {pn : String} {pt : Annot} {t : ClassId} :
      Requires W inj i j → inj.implementation W j = .ok (.cls c) →
      (pn, pt) ∈ (W.classes c).ctorAnnots → pn ≠ "return" →
      inj.interface W pt = .ok t → Requires W inj i t

/-- Recogniser for a `CyclicDependencyError` outcome. -/
def isCyclicErr {α : Type} : Except InjectorError α → Bool
  | .error (.cyclicDependency _ _) => true
  | _ => false

/-- Recogniser for an `UnimplementedError` outcome. -/
def isUnimplementedErr {α : Type} : Except InjectorError α → Bool
  | .error (.unimplemented _) => true
  | _ => false

/-- A missing interface somewhere in the dependency walk from `i`: either
`i` itself has no binding, or the walk reaches an implementation one of
whose annotations names an identifier absent from the interfaces index. -/
def MissingRequired (W : World) (inj : Injector) (i : ClassId) : Prop :=
  (lookupList inj.scoped_services i = none ∧ lookupList inj.singleton_services i = none) ∨
  (∃ j c pn pt, Requires W inj i j ∧ inj.implementation W j = .ok (.cls c) ∧
    (pn, pt) ∈ (W.classes c).ctorAnnots ∧ pn ≠ "return" ∧
    lookupList inj.interfaces (pt.nameOf W) = none)

/-! ## Dependency edges, paths and resolution chains -/

/-- Dependency edge of the registry graph: `x`'s looked-up binding is a class
(a scoped implementation, or a type-valued singleton) one of whose
(non-return) constructor annotations looks up to interface `y`. -/
def Edge (W : World) (inj : Injector) (x y : ClassId) : Prop :=
  ∃ c pn pt, inj.implementation W x = .ok (.cls c) ∧
    (pn, pt) ∈ (W.classes c).ctorAnnots ∧ pn ≠ "return" ∧ inj.interface W pt = .ok y

/-- Executable dependency edge test. -/
def edgeB (W : World) (inj : Injector) (x y : ClassId) : Bool :=
  match inj.implementation W x with
  | .ok (.cls c) =>
    (W.classes c).ctorAnnots.any (fun q =>
      (q.1 != "return") &&
        (match inj.interface W q.2 with
         | .ok t => t == y
         | .error _ => false))
  | _ => false

/-- A nonempty edge path from `x` to `y` whose intermediate nodes are `p`. -/
def EdgePath (W : World) (inj : Injector) : ClassId → List ClassId → ClassId → Prop
  | x, [], y => Edge W inj x y
  | x, z :: zs, y => Edge W inj x z ∧ EdgePath W inj z zs y

/-- Executable edge path test. -/
def pathB (W : World) (inj : Injector) : ClassId → List ClassId → ClassId → Bool
  | x, [], y => edgeB W inj x y
  | x, z :: zs, y => edgeB W inj x z && pathB W inj z zs y

/-- The list is a chain of dependency edges. -/
def ChainE (W : World) (inj : Injector) : List ClassId → Prop
  | [] => True
  | [_] => True
  | x :: y :: rest => Edge W inj x y ∧ ChainE W inj (y :: rest)

/-- Success of the recursive resolver entered with an explicit stack. -/
def SucceedsOn (W : World) (inj : Injector) (x : ClassId) (st : List ClassId) : Prop :=
  ∃ fuel k v k', resolveGo W inj fuel x (some st) k = .ok (v, k')

/-! ## Globally bound registries -/

/-- All implementation classes a resolution can try to instantiate: scoped
implementations and type-valued singleton instances. -/
def clsBindings (inj : Injector) : List ClassId :=
  inj.scoped_services.map Prod.snd ++
    inj.singleton_services.filterMap (fun p =>
      match p.2 with
      | .cls c => some c
      | .obj _ _ _ => none)

/-- Executable test that every (non-return) constructor annotation of every
registered implementation class looks up to an interface that itself has a
binding. -/
def gbB (W : World) (inj : Injector) : Bool :=
  (clsBindings inj).all (fun c =>
    (W.classes c).ctorAnnots.all (fun q =>
      (q.1 == "return") ||
        (match inj.interface W q.2 with
         | .ok t =>
           (match inj.implementation W t with
            | .ok _ => true
            | .error _ => false)
         | .error _ => false)))

/-! ## Registration invariant -/

/-- One registration call: `register_scoped` or `register_singleton`. -/
inductive RegArg where
  | scopedA (impl : ClassId)
  | singletonA (inst : Value)

/-- Dispatch a registration call on the injector. -/
def Injector.registerS (W : World) (inj : Injector) (i : ClassId) :
    RegArg → Except InjectorError Unit × Injector
  | .scopedA impl => inj.register_scopedS W i impl
  | .singletonA s => inj.register_singletonS W i s

/-- The conformance precondition of a registration call. -/
def RegArg.conforms (W : World) (i : ClassId) : RegArg → Bool
  | .scopedA impl => issubclass W impl i
  | .singletonA s => isinstance W s i

/-- Injector states reachable from a fresh injector by any sequence of
(successful or failing) registration calls. -/
inductive Reachable (W : World) : Injector → Prop where
  | init : Reachable W Injector.init
  | step (inj : Injector) (i : ClassId) (a : RegArg) :
      Reachable W inj → Reachable W (inj.registerS W i a).2

/-- Internal consistency of the three registration structures. -/
def RegInv (W : World) (inj : Injector) : Prop :=
  (inj.interfaces.map Prod.fst).Nodup ∧
  (∀ p ∈ inj.interfaces, p.1 = (W.classes p.2).name ∧
    ((lookupList inj.scoped_services p.2).isSome ∨
      (lookupList inj.singleton_services p.2).isSome)) ∧
  (∀ p ∈ inj.scoped_services,
    lookupList inj.interfaces (W.classes p.1).name = some p.1) ∧
  (∀ p ∈ inj.singleton_services,
    lookupList inj.interfaces (W.classes p.1).name = some p.1) ∧
  (inj.scoped_services.map Prod.fst).Nodup ∧
  (inj.singleton_services.map Prod.fst).Nodup ∧
  (∀ p ∈ inj.scoped_services, lookupList inj.singleton_services p.1 = none)

/-! ## The public API as a state machine -/

/-- A call of the public API surface. -/
inductive Api where
  | regScoped (i impl : ClassId)
  | regSingleton (i : ClassId) (inst : Value)
  | doResolve (i : ClassId)
  | doResolveCallable (fn : Arg)

/-- Result payload of an API call. -/
inductive ApiResult where
  | unitR
  | valueR (v : Value)
  | closureR (cl : Closure)

/-- Apply one API call to the program state (registry and allocation
counter), returning the outcome and the new state.  Registration calls
update the registry; resolution calls only advance the allocation counter,
since the source's `resolve`/`resolve_callable` perform no assignment to
`self.interfaces`, `self.scoped_services` or `self.singleton_services`. -/
def applyApi (W : World) : Api → Injector × Nat → Except InjectorError ApiResult × (Injector × Nat)
  | .regScoped i impl, (inj, k) =>
    match inj.register_scopedS W i impl with
    | (.ok _, inj') => (.ok .unitR, (inj', k))
    | (.error e, inj') => (.error e, (inj', k))
  | .regSingleton i s, (inj, k) =>
    match inj.register_singletonS W i s with
    | (.ok _, inj') => (.ok .unitR, (inj', k))
    | (.error e, inj') => (.error e, (inj', k))
  | .doResolve i, (inj, k) =>
    match inj.resolve W i k with
    | .ok (v, k') => (.ok (.valueR v), (inj, k'))
    | .error e => (.error e, (inj, k))
  | .doResolveCallable fn, (inj, k) =>
    match inj.resolve_callable W fn k with
    | .ok (cl, k') => (.ok (.closureR cl), (inj, k'))
    | .error e => (.error e, (inj, k))

/-! ## Concrete registries for counterexamples and witnesses -/

/-- The class environment of the repository's test-suite services
(`test.py`): `ComplexServiceImpl` depends on the two simple services,
`CyclicServiceImpl` depends on its own interface. -/
def testW : World :=
  { classes := fun c =>
      match c with
      | 0 => ⟨"object", [0], []⟩
      | 1 => ⟨"type", [1, 0], []⟩
      | 2 => ⟨"ComplexService", [2, 0], []⟩
      | 3 => ⟨"ComplexServiceImpl", [3, 2, 0],
          [("simpleone_service", .str "SimpleOneService"),
           ("simpletwo_service", .str "SimpleTwoService")]⟩
      | 4 => ⟨"SimpleOneService", [4, 0], []⟩
      | 5 => ⟨"SimpleOneServiceImpl", [5, 4, 0], []⟩
      | 6 => ⟨"SimpleTwoService", [6, 0], []⟩
      | 7 => ⟨"SimpleTwoServiceImpl", [7, 6, 0], []⟩
      | 8 => ⟨"CyclicService", [8, 0], []⟩
      | 9 => ⟨"CyclicServiceImpl", [9, 8, 0], [("cyclic_service", .str "CyclicService")]⟩
      | _ => ⟨"?", [], []⟩
    objectId := 0
    typeId := 1 }

/-- All three test services registered scoped. -/
def testInj : Injector :=
  { interfaces := [("ComplexService", 2), ("SimpleOneService", 4), ("SimpleTwoService", 6)]
    scoped_services := [(2, 3), (4, 5), (6, 7)]
    singleton_services := [] }

/-- `ComplexService` and `SimpleOneService` registered, `SimpleTwoService`
missing. -/
def partialInj : Injector :=
  { interfaces := [("ComplexService", 2), ("SimpleOneService", 4)]
    scoped_services := [(2, 3), (4, 5)]
    singleton_services := [] }

/-- `CyclicService` registered with its self-dependent implementation. -/
def cyclicInj : Injector :=
  { interfaces := [("CyclicService", 8)]
    scoped_services := [(8, 9)]
    singleton_services := [] }

/-- World for the C1 counterexample: `AImpl` implements `A` and depends on
`A` itself (first a cycle) and on an unregistered `B`. -/
def c1W : World :=
  { classes := fun c =>
      match c with
      | 0 => ⟨"A", [0], []⟩
      | 1 => ⟨"AImpl", [1, 0], [("a", .str "A"), ("b", .str "B")]⟩
      | _ => ⟨"?", [], []⟩
    objectId := 100
    typeId := 101 }

def c1Inj : Injector :=
  { interfaces := [("A", 0)], scoped_services := [(0, 1)], singleton_services := [] }

/-- World for the C2 counterexample: `AImpl` depends first on the
unregistered `B`, then on its own interface `A`. -/
def c2W : World :=
  { classes := fun c =>
      match c with
      | 0 => ⟨"A", [0], []⟩
      | 1 => ⟨"AImpl", [1, 0], [("b", .str "B"), ("a", .str "A")]⟩
      | _ => ⟨"?", [], []⟩
    objectId := 100
    typeId := 101 }

def c2Inj : Injector :=
  { interfaces := [("A", 0)], scoped_services := [(0, 1)], singleton_services := [] }

/-- World for the C4 counterexample: `Bad` does not inherit `I`. -/
def c4W : World :=
  { classes := fun c =>
      match c with
      | 0 => ⟨"I", [0], []⟩
      | 1 => ⟨"Impl", [1, 0], []⟩
      | 2 => ⟨"Bad", [2], []⟩
      | _ => ⟨"?", [], []⟩
    objectId := 100
    typeId := 101 }

def c4Inj : Injector :=
  { interfaces := [("I", 0)], scoped_services := [(0, 1)], singleton_services := [] }

/-- World for the type-valued-singleton edge case (C5 counterexample, C10):
the class object `Widget` is registered as a singleton for `object`
(`isinstance(Widget, object)` holds), and `Widget`'s constructor depends on
`Dep`. -/
def c10W : World :=
  { classes := fun c =>
      match c with
      | 0 => ⟨"object", [0], []⟩
      | 1 => ⟨"type", [1, 0], []⟩
      | 2 => ⟨"Widget", [2, 0], [("dep", .str "Dep")]⟩
      | 3 => ⟨"Dep", [3, 0], []⟩
      | 4 => ⟨"DepImpl", [4, 3, 0], []⟩
      | _ => ⟨"?", [], []⟩
    objectId := 0
    typeId := 1 }

def c10Inj : Injector :=
  { interfaces := [("object", 0), ("Dep", 3)]
    scoped_services := [(3, 4)]
    singleton_services := [(0, .cls 2)] }

/-- World for a singleton that is a plain instance (C5 witness). -/
def c5W : World :=
  { classes := fun c =>
      match c with
      | 0 => ⟨"object", [0], []⟩
      | 1 => ⟨"type", [1, 0], []⟩
      | 2 => ⟨"Config", [2, 0], []⟩
      | _ => ⟨"?", [], []⟩
    objectId := 0
    typeId := 1 }

def c5Inj : Injector :=
  { interfaces := [("Config", 2)]
    scoped_services := []
    singleton_services := [(2, .obj 77 2 [])] }

/-- The diamond world: interfaces `A`, `B`, `C`, `D` (ids 0–3) with scoped
implementations (ids 10–13); `A`'s implementation depends on `B` and `C`,
each of which depends on `D`.  Interface names are parameters. -/
def diamondW (nA nB nC nD nAI nBI nCI nDI : String) : World :=
  { classes := fun c =>
      match c with
      | 0 => ⟨nA, [0], []⟩
      | 1 => ⟨nB, [1], []⟩
      | 2 => ⟨nC, [2], []⟩
      | 3 => ⟨nD, [3], []⟩
      | 10 => ⟨nAI, [10, 0], [("b", .ty 1), ("c", .ty 2)]⟩
      | 11 => ⟨nBI, [11, 1], [("d", .ty 3)]⟩
      | 12 => ⟨nCI, [12, 2], [("d", .ty 3)]⟩
      | 13 => ⟨nDI, [13, 3], []⟩
      | _ => ⟨"?", [], []⟩
    objectId := 100
    typeId := 101 }

/-- The registry state after the four diamond registrations. -/
def diamondInj (nA nB nC nD : String) : Injector :=
  { interfaces := [(nA, 0), (nB, 1), (nC, 2), (nD, 3)]
    scoped_services := [(0, 10), (1, 11), (2, 12), (3, 13)]
    singleton_services := [] }

/-!
Theorems.  First the lemma layer about lookups, fuel, addresses, errors,
dependency chains and the registration invariant; then one theorem per
claim of the specification, each with its counterexample and witness where
applicable.
-/

/-! ## Association-list lemmas -/

theorem lookupList_mem {α β : Type} [BEq α] [LawfulBEq α] :
    ∀ (l : List (α × β)) (a : α) (b : β), lookupList l a = some b → (a, b) ∈ l := by
  intro l
  induction l with
  | nil => intro a b h; simp [lookupList] at h
  | cons hd tl ih =>
    intro a b h
    obtain ⟨key, val⟩ := hd
    simp only [lookupList] at h
    by_cases hk : key == a
    · rw [if_pos hk] at h
      cases h
      have : key = a := by simpa using hk
      subst this
      exact List.mem_cons_self _ _
    · rw [if_neg hk] at h
      exact List.mem_cons_of_mem _ (ih a b h)

theorem lookupList_isSome_iff {α β : Type} [BEq α] [LawfulBEq α] :
    ∀ (l : List (α × β)) (a : α), (lookupList l a).isSome ↔ a ∈ l.map Prod.fst := by
  intro l
  induction l with
  | nil => intro a; simp [lookupList]
  | cons hd tl ih =>
    intro a
    obtain ⟨key, val⟩ := hd
    simp only [lookupList, List.map_cons, List.mem_cons]
    by_cases hk : key == a
    · have : key = a := by simpa using hk
      subst this
      simp
    · rw [if_neg hk]
      have : ¬ a = key := by
        intro h; subst h; simp at hk
      simp [ih, this, eq_comm]

theorem lookupList_append_some {α β : Type} [BEq α] :
    ∀ (l1 l2 : List (α × β)) (a : α) (b : β),
      lookupList l1 a = some b → lookupList (l1 ++ l2) a = some b := by
  intro l1
  induction l1 with
  | nil => intro l2 a b h; simp [lookupList] at h
  | cons hd tl ih =>
    intro l2 a b h
    obtain ⟨key, val⟩ := hd
    simp only [lookupList, List.cons_append] at h ⊢
    by_cases hk : key == a
    · rwa [if_pos hk] at h ⊢
    · rw [if_neg hk] at h ⊢
      exact ih l2 a b h

theorem lookupList_append_none {α β : Type} [BEq α] :
    ∀ (l1 l2 : List (α × β)) (a : α),
      lookupList l1 a = none → lookupList (l1 ++ l2) a = lookupList l2 a := by
  intro l1
  induction l1 with
  | nil => intro l2 a _; simp [lookupList]
  | cons hd tl ih =>
    intro l2 a h
    obtain ⟨key, val⟩ := hd
    simp only [lookupList, List.cons_append] at h ⊢
    by_cases hk : key == a
    · rw [if_pos hk] at h; cases h
    · rw [if_neg hk] at h ⊢
      exact ih l2 a h

/-! ## Filter length lemmas (for the fuel bound) -/

theorem filter_length_mono {α : Type} (p q : α → Bool)
    (himp : ∀ x, q x = true → p x = true) :
    ∀ l : List α, (l.filter q).length ≤ (l.filter p).length := by
  intro l
  induction l with
  | nil => simp
  | cons hd tl ih =>
    by_cases hq : q hd
    · rw [List.filter_cons_of_pos hq, List.filter_cons_of_pos (himp hd hq)]
      simpa using ih
    · rw [List.filter_cons_of_neg (by simpa using hq)]
      by_cases hp : p hd
      · rw [List.filter_cons_of_pos hp]
        exact le_trans ih (Nat.le_succ _)
      · rw [List.filter_cons_of_neg (by simpa using hp)]
        exact ih

theorem filter_length_strict {α : Type} (p q : α → Bool)
    (himp : ∀ x, q x = true → p x = true) :
    ∀ (l : List α) (a : α), a ∈ l → p a = true → q a = false →
      (l.filter q).length < (l.filter p).length := by
  intro l
  induction l with
  | nil => intro a h; simp at h
  | cons hd tl ih =>
    intro a hmem hpa hqa
    rcases List.mem_cons.mp hmem with heq | htl
    · subst heq
      rw [List.filter_cons_of_pos hpa, List.filter_cons_of_neg (by simp [hqa])]
      exact Nat.lt_succ_of_le (filter_length_mono p q himp tl)
    · by_cases hq : q hd
      · rw [List.filter_cons_of_pos hq, List.filter_cons_of_pos (himp hd hq)]
        simpa using ih a htl hpa hqa
      · rw [List.filter_cons_of_neg (by simpa using hq)]
        by_cases hp : p hd
        · rw [List.filter_cons_of_pos hp]
          exact Nat.lt_succ_of_le (le_of_lt (ih a htl hpa hqa))
        · rw [List.filter_cons_of_neg (by simpa using hp)]
          exact ih a htl hpa hqa

theorem implementation_mem_keys (W : World) (inj : Injector) (i : ClassId) (v : Value)
    (h : inj.implementation W i = .ok v) : i ∈ keysList inj := by
  unfold Injector.implementation at h
  unfold keysList
  cases hs : lookupList inj.scoped_services i with
  | some tv =>
    exact List.mem_append_left _
      (List.mem_map_of_mem Prod.fst (lookupList_mem _ _ _ hs))
  | none =>
    rw [hs] at h
    cases hg : lookupList inj.singleton_services i with
    | some av =>
      exact List.mem_append_right _
        (List.mem_map_of_mem Prod.fst (lookupList_mem _ _ _ hg))
    | none => rw [hg] at h; cases h

theorem fuelOK_push (inj : Injector) (l : List ClassId) (i : ClassId) (fuel : Nat)
    (h : fuelOK inj (some l) (fuel + 1)) (hik : i ∈ keysList inj) (hil : i ∉ l) :
    fuelOK inj (some (l ++ [i])) fuel := by
  obtain ⟨hnd, hsub, hlen⟩ := h
  refine ⟨by simp [List.nodup_append, hnd, hil], ?_, ?_⟩
  · intro x hx
    rcases List.mem_append.mp hx with hx | hx
    · exact hsub x hx
    · simp at hx; subst hx; exact hik
  · have hstrict :
        ((keysList inj).filter (fun x => decide (x ∉ l ++ [i]))).length <
        ((keysList inj).filter (fun x => decide (x ∉ l))).length := by
      apply filter_length_strict
      · intro x hx
        simp only [decide_eq_true_eq] at hx ⊢
        intro hxl
        exact hx (List.mem_append_left _ hxl)
      · exact hik
      · simp [hil]
      · simp
    omega

theorem fuelOK_start (inj : Injector) (i : ClassId) (fuel : Nat)
    (h : fuelOK inj none (fuel + 1)) (hik : i ∈ keysList inj) :
    fuelOK inj (some [i]) fuel := by
  simp only [fuelOK] at h ⊢
  refine ⟨List.nodup_singleton i, by simpa using hik, ?_⟩
  have hstrict :
      ((keysList inj).filter (fun x => decide (x ∉ ([i] : List ClassId)))).length <
      (keysList inj).length := by
    have := filter_length_strict (fun _ => true) (fun x => decide (x ∉ ([i] : List ClassId)))
      (by intro x _; rfl) (keysList inj) i hik rfl (by simp)
    simpa using this
  omega

theorem interface_ne_outOfFuel (W : World) (inj : Injector) (pt : Annot) :
    inj.interface W pt ≠ .error .outOfFuel := by
  unfold Injector.interface
  cases lookupList inj.interfaces (pt.nameOf W) <;> simp

theorem resolveParams_ne_outOfFuel (W : World) (inj : Injector)
    (res : ClassId → Nat → Except InjectorError (Value × Nat))
    (hres : ∀ t k1, res t k1 ≠ .error .outOfFuel) :
    ∀ (annots : List (String × Annot)) (k : Nat),
      resolveParams W inj res annots k ≠ .error .outOfFuel := by
  intro annots
  induction annots with
  | nil => intro k h; simp [resolveParams] at h
  | cons hd tl ih =>
    intro k h
    obtain ⟨pn, pt⟩ := hd
    simp only [resolveParams] at h
    by_cases hret : pn = "return"
    · rw [if_pos hret] at h
      exact ih k h
    · rw [if_neg hret] at h
      cases hint : inj.interface W pt with
      | error e =>
        simp only [hint] at h
        injection h with h'
        subst h'
        exact interface_ne_outOfFuel W inj pt hint
      | ok t =>
        simp only [hint] at h
        cases hres' : res t k with
        | error e =>
          simp only [hres'] at h
          injection h with h'
          subst h'
          exact hres t k hres'
        | ok vk =>
          obtain ⟨v, k1⟩ := vk
          simp only [hres'] at h
          cases hrest : resolveParams W inj res tl k1 with
          | error e =>
            simp only [hrest] at h
            injection h with h'
            subst h'
            exact ih k1 hrest
          | ok p =>
            obtain ⟨kvs, k2⟩ := p
            simp only [hrest] at h
            cases h

theorem implementation_ne_outOfFuel (W : World) (inj : Injector) (i : ClassId) :
    inj.implementation W i ≠ .error .outOfFuel := by
  unfold Injector.implementation
  cases lookupList inj.scoped_services i with
  | some tv => simp
  | none => cases lookupList inj.singleton_services i <;> simp

theorem resolveGo_ne_outOfFuel (W : World) (inj : Injector) :
    ∀ (fuel : Nat) (st : Option (List ClassId)) (i : ClassId) (k : Nat),
      fuelOK inj st fuel → resolveGo W inj fuel i st k ≠ .error .outOfFuel := by
  intro fuel
  induction fuel with
  | zero =>
    intro st i k hok
    exfalso
    cases st <;> simp [fuelOK] at hok
  | succ fuel ih =>
    intro st i k hok h
    simp only [resolveGo] at h
    cases himpl : inj.implementation W i with
    | error e =>
      simp only [himpl] at h
      injection h with h'
      subst h'
      exact implementation_ne_outOfFuel W inj i himpl
    | ok impl =>
      simp only [himpl] at h
      cases impl with
      | obj a c attrs => simp at h
      | cls c =>
        have hik : i ∈ keysList inj := implementation_mem_keys W inj i _ himpl
        cases st with
        | none =>
          cases hp : resolveParams W inj (fun t k1 => resolveGo W inj fuel t (some [i]) k1)
              (W.classes c).ctorAnnots k with
          | error e =>
            simp only [hp] at h
            injection h with h'
            subst h'
            refine resolveParams_ne_outOfFuel W inj _ ?_ _ _ hp
            intro t k1
            exact ih (some [i]) t k1 (fuelOK_start inj i fuel hok hik)
          | ok p =>
            obtain ⟨kwargs, kp⟩ := p
            simp only [hp] at h
            cases h
        | some l =>
          by_cases hmem : i ∈ l
          · simp only [if_pos hmem] at h
            injection h with h'
            cases h'
          · simp only [if_neg hmem] at h
            cases hp : resolveParams W inj
                (fun t k1 => resolveGo W inj fuel t (some (l ++ [i])) k1)
                (W.classes c).ctorAnnots k with
            | error e =>
              simp only [hp] at h
              injection h with h'
              subst h'
              refine resolveParams_ne_outOfFuel W inj _ ?_ _ _ hp
              intro t k1
              exact ih (some (l ++ [i])) t k1 (fuelOK_push inj l i fuel hok hik hmem)
            | ok p =>
              obtain ⟨kwargs, kp⟩ := p
              simp only [hp] at h
              cases h

/-- The public wrapper never runs out of fuel: `fuelBound` is adequate. -/
theorem resolve_ne_outOfFuel (W : World) (inj : Injector) (i : ClassId) (k : Nat) :
    inj.resolve W i k ≠ .error .outOfFuel := by
  apply resolveGo_ne_outOfFuel
  simp only [fuelOK, Injector.fuelBound, keysList]
  simp

theorem mem_addrsOfValues {l : List Value} {v : Value} {a : Nat}
    (hv : v ∈ l) (ha : a ∈ v.addrs) : a ∈ addrsOfValues l := by
  induction l with
  | nil => cases hv
  | cons hd tl ih =>
    rcases List.mem_cons.mp hv with h | h
    · subst h
      exact List.mem_append_left _ ha
    · exact List.mem_append_right _ (ih h)

theorem singleton_addrs_stored (inj : Injector) (i : ClassId) (v : Value)
    (h : lookupList inj.singleton_services i = some v) :
    ∀ a ∈ v.addrs, a ∈ storedAddrs inj := by
  intro a ha
  exact mem_addrsOfValues (List.mem_map_of_mem Prod.snd (lookupList_mem _ _ _ h)) ha

theorem resolveParams_range (W : World) (inj : Injector)
    (res : ClassId → Nat → Except InjectorError (Value × Nat))
    (hres : RangeOK inj res) :
    ∀ (annots : List (String × Annot)) (k : Nat) kvs k',
      resolveParams W inj res annots k = .ok (kvs, k') →
      k ≤ k' ∧ ∀ a ∈ addrsOfAttrs kvs, (k ≤ a ∧ a < k') ∨ a ∈ storedAddrs inj := by
  intro annots
  induction annots with
  | nil =>
    intro k kvs k' h
    simp only [resolveParams] at h
    injection h with h'
    injection h' with h1 h2
    subst h1; subst h2
    exact ⟨le_refl _, by intro a ha; simp [addrsOfAttrs] at ha⟩
  | cons hd tl ih =>
    intro k kvs k' h
    obtain ⟨pn, pt⟩ := hd
    simp only [resolveParams] at h
    by_cases hret : pn = "return"
    · rw [if_pos hret] at h
      exact ih k kvs k' h
    · rw [if_neg hret] at h
      cases hint : inj.interface W pt with
      | error e => simp only [hint] at h; cases h
      | ok t =>
        simp only [hint] at h
        cases hres' : res t k with
        | error e => simp only [hres'] at h; cases h
        | ok vk =>
          obtain ⟨v, k1⟩ := vk
          simp only [hres'] at h
          cases hrest : resolveParams W inj res tl k1 with
          | error e => simp only [hrest] at h; cases h
          | ok p =>
            obtain ⟨kvs2, k2⟩ := p
            simp only [hrest] at h
            injection h with h'
            injection h' with h1 h2
            subst h1; subst h2
            obtain ⟨hm1, hr1⟩ := hres t k v k1 hres'
            obtain ⟨hm2, hr2⟩ := ih k1 kvs2 _ hrest
            refine ⟨le_trans hm1 hm2, ?_⟩
            intro a ha
            simp only [addrsOfAttrs] at ha
            rcases List.mem_append.mp ha with ha | ha
            · rcases hr1 a ha with ⟨h1, h2⟩ | hst
              · exact Or.inl ⟨h1, lt_of_lt_of_le h2 hm2⟩
              · exact Or.inr hst
            · rcases hr2 a ha with ⟨h1, h2⟩ | hst
              · exact Or.inl ⟨le_trans hm1 h1, h2⟩
              · exact Or.inr hst

theorem resolveGo_range (W : World) (inj : Injector) :
    ∀ (fuel : Nat) (i : ClassId) (st : Option (List ClassId)) (k : Nat) v k',
      resolveGo W inj fuel i st k = .ok (v, k') →
      k ≤ k' ∧ ∀ a ∈ v.addrs, (k ≤ a ∧ a < k') ∨ a ∈ storedAddrs inj := by
  intro fuel
  induction fuel with
  | zero => intro i st k v k' h; simp [resolveGo] at h
  | succ fuel ih =>
    intro i st k v k' h
    simp only [resolveGo] at h
    cases himpl : inj.implementation W i with
    | error e => simp only [himpl] at h; cases h
    | ok impl =>
      simp only [himpl] at h
      cases impl with
      | obj a c attrs =>
        injection h with h'
        injection h' with h1 h2
        subst h1; subst h2
        refine ⟨le_refl _, ?_⟩
        intro x hx
        right
        have hsing : lookupList inj.singleton_services i = some (.obj a c attrs) := by
          unfold Injector.implementation at himpl
          cases hs : lookupList inj.scoped_services i with
          | some tv => rw [hs] at himpl; cases himpl
          | none =>
            rw [hs] at himpl
            cases hg : lookupList inj.singleton_services i with
            | some av => rw [hg] at himpl; injection himpl with h''; rw [h'']
            | none => rw [hg] at himpl; cases himpl
        exact singleton_addrs_stored inj i _ hsing x hx
      | cls c =>
        cases st with
        | none =>
          cases hp : resolveParams W inj (fun t k1 => resolveGo W inj fuel t (some [i]) k1)
              (W.classes c).ctorAnnots k with
          | error e => simp only [hp] at h; cases h
          | ok p =>
            obtain ⟨kwargs, kp⟩ := p
            simp only [hp] at h
            injection h with h'
            injection h' with h1 h2
            subst h1; subst h2
            obtain ⟨hm1, hr1⟩ := resolveParams_range W inj _
              (fun t k1 v1 k1' hcall => ih t (some [i]) k1 v1 k1' hcall) _ _ _ _ hp
            refine ⟨le_trans hm1 (Nat.le_succ _), ?_⟩
            intro x hx
            simp only [Value.addrs] at hx
            rcases List.mem_cons.mp hx with h1 | h1
            · subst h1
              exact Or.inl ⟨hm1, Nat.lt_succ_self _⟩
            · rcases hr1 x h1 with ⟨hx1, hx2⟩ | hst
              · exact Or.inl ⟨hx1, lt_of_lt_of_le hx2 (Nat.le_succ _)⟩
              · exact Or.inr hst
        | some l =>
          by_cases hmem : i ∈ l
          · simp only [if_pos hmem] at h; cases h
          · simp only [if_neg hmem] at h
            cases hp : resolveParams W inj
                (fun t k1 => resolveGo W inj fuel t (some (l ++ [i])) k1)
                (W.classes c).ctorAnnots k with
            | error e => simp only [hp] at h; cases h
            | ok p =>
              obtain ⟨kwargs, kp⟩ := p
              simp only [hp] at h
              injection h with h'
              injection h' with h1 h2
              subst h1; subst h2
              obtain ⟨hm1, hr1⟩ := resolveParams_range W inj _
                (fun t k1 v1 k1' hcall => ih t (some (l ++ [i])) k1 v1 k1' hcall) _ _ _ _ hp
              refine ⟨le_trans hm1 (Nat.le_succ _), ?_⟩
              intro x hx
              simp only [Value.addrs] at hx
              rcases List.mem_cons.mp hx with h1 | h1
              · subst h1
                exact Or.inl ⟨hm1, Nat.lt_succ_self _⟩
              · rcases hr1 x h1 with ⟨hx1, hx2⟩ | hst
                · exact Or.inl ⟨hx1, lt_of_lt_of_le hx2 (Nat.le_succ _)⟩
                · exact Or.inr hst

/-! ## Inversion lemmas -/

/-- Successful top-level resolution of a scoped-bound interface always ends
in `implementation(**kwargs)`: the result is a freshly allocated instance
of the bound implementation class. -/
theorem resolve_scoped_ok_shape (W : World) (inj : Injector) (i impl : ClassId)
    (k : Nat) (v : Value) (k' : Nat)
    (hsc : lookupList inj.scoped_services i = some impl)
    (h : inj.resolve W i k = .ok (v, k')) :
    ∃ kwargs kp, v = .obj kp impl kwargs ∧ k' = kp + 1 ∧ k ≤ kp := by
  have himpl : inj.implementation W i = .ok (.cls impl) := by
    unfold Injector.implementation
    rw [hsc]
  obtain ⟨m, hm⟩ : ∃ m, inj.fuelBound = m + 1 := ⟨_, rfl⟩
  unfold Injector.resolve at h
  rw [hm] at h
  simp only [resolveGo, himpl] at h
  cases hp : resolveParams W inj (fun t k1 => resolveGo W inj m t (some [i]) k1)
      (W.classes impl).ctorAnnots k with
  | error e => simp only [hp] at h; cases h
  | ok p =>
    obtain ⟨kwargs, kp⟩ := p
    simp only [hp] at h
    injection h with h'
    injection h' with h1 h2
    obtain ⟨hmono, _⟩ := resolveParams_range W inj _
      (fun t k1 v1 k1' hcall => resolveGo_range W inj m t (some [i]) k1 v1 k1' hcall)
      _ _ _ _ hp
    exact ⟨kwargs, kp, h1.symm, h2.symm, hmono⟩

theorem interface_error_shape (W : World) (inj : Injector) (pt : Annot) (e : InjectorError)
    (h : inj.interface W pt = .error e) : ∃ n, e = .unimplemented n := by
  unfold Injector.interface at h
  cases hl : lookupList inj.interfaces (pt.nameOf W) with
  | some t => rw [hl] at h; cases h
  | none =>
    rw [hl] at h
    injection h with h'
    exact ⟨_, h'.symm⟩

theorem implementation_error_shape (W : World) (inj : Injector) (i : ClassId)
    (e : InjectorError) (h : inj.implementation W i = .error e) :
    e = .unimplemented (W.classes i).name := by
  unfold Injector.implementation at h
  cases hs : lookupList inj.scoped_services i with
  | some tv => rw [hs] at h; cases h
  | none =>
    rw [hs] at h
    cases hg : lookupList inj.singleton_services i with
    | some av => rw [hg] at h; cases h
    | none => rw [hg] at h; injection h with h'; exact h'.symm

/-- Every error escaping the annotation loop either comes from a failed
`Injector.interface` lookup of one of the (non-return) annotations, or is
propagated from the resolver applied to one of the looked-up interfaces. -/
theorem resolveParams_error_cases (W : World) (inj : Injector)
    (res : ClassId → Nat → Except InjectorError (Value × Nat)) :
    ∀ (annots : List (String × Annot)) (k : Nat) (e : InjectorError),
      resolveParams W inj res annots k = .error e →
      (∃ pn pt, (pn, pt) ∈ annots ∧ pn ≠ "return" ∧ inj.interface W pt = .error e) ∨
      (∃ pn pt t k1, (pn, pt) ∈ annots ∧ pn ≠ "return" ∧
        inj.interface W pt = .ok t ∧ res t k1 = .error e) := by
  intro annots
  induction annots with
  | nil => intro k e h; simp [resolveParams] at h
  | cons hd tl ih =>
    intro k e h
    obtain ⟨pn, pt⟩ := hd
    simp only [resolveParams] at h
    by_cases hret : pn = "return"
    · rw [if_pos hret] at h
      rcases ih k e h with ⟨pn', pt', hmem, hr, hl⟩ | ⟨pn', pt', t, k1, hmem, hr, hl, he⟩
      · exact Or.inl ⟨pn', pt', List.mem_cons_of_mem _ hmem, hr, hl⟩
      · exact Or.inr ⟨pn', pt', t, k1, List.mem_cons_of_mem _ hmem, hr, hl, he⟩
    · rw [if_neg hret] at h
      cases hint : inj.interface W pt with
      | error e' =>
        simp only [hint] at h
        injection h with h'
        subst h'
        exact Or.inl ⟨pn, pt, List.mem_cons_self _ _, hret, hint⟩
      | ok t =>
        simp only [hint] at h
        cases hres' : res t k with
        | error e' =>
          simp only [hres'] at h
          injection h with h'
          subst h'
          exact Or.inr ⟨pn, pt, t, k, List.mem_cons_self _ _, hret, hint, hres'⟩
        | ok vk =>
          obtain ⟨v, k1⟩ := vk
          simp only [hres'] at h
          cases hrest : resolveParams W inj res tl k1 with
          | error e' =>
            simp only [hrest] at h
            injection h with h'
            subst h'
            rcases ih k1 _ hrest with ⟨pn', pt', hmem, hr, hl⟩ | ⟨pn', pt', t', k2, hmem, hr, hl, he⟩
            · exact Or.inl ⟨pn', pt', List.mem_cons_of_mem _ hmem, hr, hl⟩
            · exact Or.inr ⟨pn', pt', t', k2, List.mem_cons_of_mem _ hmem, hr, hl, he⟩
          | ok p =>
            obtain ⟨kvs, k2⟩ := p
            simp only [hrest] at h
            cases h

/-- Success of the annotation loop means every (non-return) annotation was
looked up successfully and resolved successfully. -/
theorem resolveParams_ok_mem (W : World) (inj : Injector)
    (res : ClassId → Nat → Except InjectorError (Value × Nat)) :
    ∀ (annots : List (String × Annot)) (k : Nat) kvs k',
      resolveParams W inj res annots k = .ok (kvs, k') →
      ∀ pn pt, (pn, pt) ∈ annots → pn ≠ "return" →
        ∃ t k1 v k2, inj.interface W pt = .ok t ∧ res t k1 = .ok (v, k2) := by
  intro annots
  induction annots with
  | nil => intro k kvs k' h pn pt hmem; cases hmem
  | cons hd tl ih =>
    intro k kvs k' h pn pt hmem hret
    obtain ⟨pn0, pt0⟩ := hd
    simp only [resolveParams] at h
    by_cases hret0 : pn0 = "return"
    · rw [if_pos hret0] at h
      rcases List.mem_cons.mp hmem with heq | htl
      · injection heq with he1 he2
        subst he1
        exact absurd hret0 hret
      · exact ih k kvs k' h pn pt htl hret
    · rw [if_neg hret0] at h
      cases hint : inj.interface W pt0 with
      | error e => simp only [hint] at h; cases h
      | ok t =>
        simp only [hint] at h
        cases hres' : res t k with
        | error e => simp only [hres'] at h; cases h
        | ok vk =>
          obtain ⟨v, k1⟩ := vk
          simp only [hres'] at h
          cases hrest : resolveParams W inj res tl k1 with
          | error e => simp only [hrest] at h; cases h
          | ok p =>
            obtain ⟨kvs2, k2⟩ := p
            simp only [hrest] at h
            rcases List.mem_cons.mp hmem with heq | htl
            · injection heq with he1 he2
              subst he1; subst he2
              exact ⟨t, k, v, k1, hint, hres'⟩
            · exact ih k1 kvs2 k2 hrest pn pt htl hret

/-- Classification of the errors `resolve` can produce: only
`UnimplementedError` and `CyclicDependencyError` escape the recursive walk
(plus the fuel artefact, unreachable from the wrapper). -/
theorem resolveGo_error_shape (W : World) (inj : Injector) :
    ∀ (fuel : Nat) (i : ClassId) (st : Option (List ClassId)) (k : Nat) (e : InjectorError),
      resolveGo W inj fuel i st k = .error e → IsResolveErr e := by
  intro fuel
  induction fuel with
  | zero =>
    intro i st k e h
    simp only [resolveGo] at h
    injection h with h'
    exact Or.inr (Or.inr h'.symm)
  | succ fuel ih =>
    intro i st k e h
    simp only [resolveGo] at h
    cases himpl : inj.implementation W i with
    | error e' =>
      simp only [himpl] at h
      injection h with h'
      subst h'
      exact Or.inl ⟨_, implementation_error_shape W inj i _ himpl⟩
    | ok impl =>
      simp only [himpl] at h
      cases impl with
      | obj a c attrs => cases h
      | cls c =>
        have fromParams : ∀ (ns : List ClassId),
            resolveParams W inj (fun t k1 => resolveGo W inj fuel t (some ns) k1)
              (W.classes c).ctorAnnots k = .error e → IsResolveErr e := by
          intro ns hp
          rcases resolveParams_error_cases W inj _ _ _ _ hp with
            ⟨pn, pt, _, _, hl⟩ | ⟨pn, pt, t, k1, _, _, _, he⟩
          · exact Or.inl (interface_error_shape W inj pt e hl)
          · exact ih t (some ns) k1 e he
        cases st with
        | none =>
          cases hp : resolveParams W inj (fun t k1 => resolveGo W inj fuel t (some [i]) k1)
              (W.classes c).ctorAnnots k with
          | error e' =>
            simp only [hp] at h
            injection h with h'
            subst h'
            exact fromParams [i] hp
          | ok p =>
            obtain ⟨kwargs, kp⟩ := p
            simp only [hp] at h
            cases h
        | some l =>
          by_cases hmem : i ∈ l
          · simp only [if_pos hmem] at h
            injection h with h'
            exact Or.inr (Or.inl ⟨_, _, h'.symm⟩)
          · simp only [if_neg hmem] at h
            cases hp : resolveParams W inj
                (fun t k1 => resolveGo W inj fuel t (some (l ++ [i])) k1)
                (W.classes c).ctorAnnots k with
            | error e' =>
              simp only [hp] at h
              injection h with h'
              subst h'
              exact fromParams (l ++ [i]) hp
            | ok p =>
              obtain ⟨kwargs, kp⟩ := p
              simp only [hp] at h
              cases h

/-! ## Transitive requirement and resolution success -/

theorem implementation_error_lookups (W : World) (inj : Injector) (i : ClassId)
    (e : InjectorError) (h : inj.implementation W i = .error e) :
    lookupList inj.scoped_services i = none ∧ lookupList inj.singleton_services i = none := by
  unfold Injector.implementation at h
  cases hs : lookupList inj.scoped_services i with
  | some tv => rw [hs] at h; cases h
  | none =>
    rw [hs] at h
    cases hg : lookupList inj.singleton_services i with
    | some av => rw [hg] at h; cases h
    | none => exact ⟨rfl, rfl⟩

theorem interface_error_lookup (W : World) (inj : Injector) (pt : Annot)
    (e : InjectorError) (h : inj.interface W pt = .error e) :
    e = .unimplemented (pt.nameOf W) ∧ lookupList inj.interfaces (pt.nameOf W) = none := by
  unfold Injector.interface at h
  cases hl : lookupList inj.interfaces (pt.nameOf W) with
  | some t => rw [hl] at h; cases h
  | none =>
    rw [hl] at h
    injection h with h'
    exact ⟨h'.symm, rfl⟩

theorem requires_trans (W : World) (inj : Injector) :
    ∀ i j l, Requires W inj i j → Requires W inj j l → Requires W inj i l := by
  intro i j l hij hjl
  induction hjl with
  | refl => exact hij
  | step _ himpl hmem hret hint ih => exact Requires.step ih himpl hmem hret hint

theorem succeeds_inversion (W : World) (inj : Injector) (i c : ClassId)
    (himpl : inj.implementation W i = .ok (.cls c)) (h : Succeeds W inj i) :
    ∀ pn pt, (pn, pt) ∈ (W.classes c).ctorAnnots → pn ≠ "return" →
      ∃ t, inj.interface W pt = .ok t ∧ Succeeds W inj t := by
  intro pn pt hmem hret
  obtain ⟨fuel, st, k, v, k', h⟩ := h
  cases fuel with
  | zero => simp [resolveGo] at h
  | succ fuel =>
    simp only [resolveGo, himpl] at h
    have fromParams : ∀ (ns : List ClassId),
        (∃ kvs kp, resolveParams W inj (fun t k1 => resolveGo W inj fuel t (some ns) k1)
          (W.classes c).ctorAnnots k = .ok (kvs, kp)) →
        ∃ t, inj.interface W pt = .ok t ∧ Succeeds W inj t := by
      intro ns ⟨kvs, kp, hp⟩
      obtain ⟨t, k1, v1, k2, hint, hres⟩ :=
        resolveParams_ok_mem W inj _ _ _ _ _ hp pn pt hmem hret
      exact ⟨t, hint, fuel, some ns, k1, v1, k2, hres⟩
    cases st with
    | none =>
      cases hp : resolveParams W inj (fun t k1 => resolveGo W inj fuel t (some [i]) k1)
          (W.classes c).ctorAnnots k with
      | error e => simp only [hp] at h; cases h
      | ok p =>
        obtain ⟨kvs, kp⟩ := p
        exact fromParams [i] ⟨kvs, kp, hp⟩
    | some l =>
      by_cases hmem' : i ∈ l
      · simp only [if_pos hmem'] at h; cases h
      · simp only [if_neg hmem'] at h
        cases hp : resolveParams W inj
            (fun t k1 => resolveGo W inj fuel t (some (l ++ [i])) k1)
            (W.classes c).ctorAnnots k with
        | error e => simp only [hp] at h; cases h
        | ok p =>
          obtain ⟨kvs, kp⟩ := p
          exact fromParams (l ++ [i]) ⟨kvs, kp, hp⟩

theorem requires_succeeds (W : World) (inj : Injector) :
    ∀ i j, Requires W inj i j → Succeeds W inj i → Succeeds W inj j := by
  intro i j hreq hsuc
  induction hreq with
  | refl => exact hsuc
  | step _ himpl hmem hret hint ih =>
    obtain ⟨t, hint', hsuc'⟩ := succeeds_inversion W inj _ _ himpl ih _ _ hmem hret
    rw [hint] at hint'
    injection hint' with h'
    rwa [h']

/-- Soundness of `UnimplementedError`: when the resolver fails with
`Unresolved(n)`, the name `n` designates an interface that is reachable in
the dependency walk from the request and that lacks a binding — either the
reached interface itself has no entry in either table, or one of the
annotations of a reached implementation names an identifier absent from
the interfaces index. -/
theorem resolveGo_unimplemented_sound (W : World) (inj : Injector) :
    ∀ (fuel : Nat) (i : ClassId) (st : Option (List ClassId)) (k : Nat) (n : String),
      resolveGo W inj fuel i st k = .error (.unimplemented n) →
      (∃ j, Requires W inj i j ∧ n = (W.classes j).name ∧
        lookupList inj.scoped_services j = none ∧
        lookupList inj.singleton_services j = none) ∨
      (∃ j c pn pt, Requires W inj i j ∧ inj.implementation W j = .ok (.cls c) ∧
        (pn, pt) ∈ (W.classes c).ctorAnnots ∧ pn ≠ "return" ∧ pt.nameOf W = n ∧
        lookupList inj.interfaces n = none) := by
  intro fuel
  induction fuel with
  | zero =>
    intro i st k n h
    simp only [resolveGo] at h
    injection h with h'
    cases h'
  | succ fuel ih =>
    intro i st k n h
    simp only [resolveGo] at h
    cases himpl : inj.implementation W i with
    | error e =>
      simp only [himpl] at h
      injection h with h'
      subst h'
      have hsh := implementation_error_shape W inj i _ himpl
      obtain ⟨hs, hg⟩ := implementation_error_lookups W inj i _ himpl
      injection hsh with hn
      exact Or.inl ⟨i, Requires.refl i, hn, hs, hg⟩
    | ok impl =>
      simp only [himpl] at h
      cases impl with
      | obj a c attrs => cases h
      | cls c =>
        have fromParams : ∀ (ns : List ClassId),
            resolveParams W inj (fun t k1 => resolveGo W inj fuel t (some ns) k1)
              (W.classes c).ctorAnnots k = .error (.unimplemented n) →
            (∃ j, Requires W inj i j ∧ n = (W.classes j).name ∧
              lookupList inj.scoped_services j = none ∧
              lookupList inj.singleton_services j = none) ∨
            (∃ j c' pn pt, Requires W inj i j ∧ inj.implementation W j = .ok (.cls c') ∧
              (pn, pt) ∈ (W.classes c').ctorAnnots ∧ pn ≠ "return" ∧ pt.nameOf W = n ∧
              lookupList inj.interfaces n = none) := by
          intro ns hp
          rcases resolveParams_error_cases W inj _ _ _ _ hp with
            ⟨pn, pt, hmem, hret, hl⟩ | ⟨pn, pt, t, k1, hmem, hret, hint, he⟩
          · obtain ⟨hsh, hnone⟩ := interface_error_lookup W inj pt _ hl
            injection hsh with hn
            subst hn
            exact Or.inr ⟨i, c, pn, pt, Requires.refl i, himpl, hmem, hret, rfl, hnone⟩
          · have hit : Requires W inj i t :=
              Requires.step (Requires.refl i) himpl hmem hret hint
            rcases ih t (some ns) k1 n he with
              ⟨j, hreq, hn, hs, hg⟩ | ⟨j, c', pn', pt', hreq, himpl', hmem', hret', hn, hnone⟩
            · exact Or.inl ⟨j, requires_trans W inj i t j hit hreq, hn, hs, hg⟩
            · exact Or.inr ⟨j, c', pn', pt',
                requires_trans W inj i t j hit hreq, himpl', hmem', hret', hn, hnone⟩
        cases st with
        | none =>
          cases hp : resolveParams W inj (fun t k1 => resolveGo W inj fuel t (some [i]) k1)
              (W.classes c).ctorAnnots k with
          | error e =>
            simp only [hp] at h
            injection h with h'
            subst h'
            exact fromParams [i] hp
          | ok p =>
            obtain ⟨kwargs, kp⟩ := p
            simp only [hp] at h
            cases h
        | some l =>
          by_cases hmem : i ∈ l
          · simp only [if_pos hmem] at h
            injection h with h'
            cases h'
          · simp only [if_neg hmem] at h
            cases hp : resolveParams W inj
                (fun t k1 => resolveGo W inj fuel t (some (l ++ [i])) k1)
                (W.classes c).ctorAnnots k with
            | error e =>
              simp only [hp] at h
              injection h with h'
              subst h'
              exact fromParams (l ++ [i]) hp
            | ok p =>
              obtain ⟨kwargs, kp⟩ := p
              simp only [hp] at h
              cases h

theorem succeeds_impl_ok (W : World) (inj : Injector) (i : ClassId)
    (h : Succeeds W inj i) : ∃ v, inj.implementation W i = .ok v := by
  obtain ⟨fuel, st, k, v, k', h⟩ := h
  cases fuel with
  | zero => simp [resolveGo] at h
  | succ fuel =>
    simp only [resolveGo] at h
    cases himpl : inj.implementation W i with
    | error e => simp only [himpl] at h; cases h
    | ok impl => exact ⟨impl, rfl⟩

/-- Completeness of `UnimplementedError`: a missing interface in the
dependency walk forces resolution to fail, and unless the failure is a
cycle detected before the missing interface is reached, the error is
`Unresolved` for some missing name. -/
theorem resolve_unimplemented_complete (W : World) (inj : Injector) (i : ClassId) (k : Nat)
    (hmiss : MissingRequired W inj i)
    (hnc : isCyclicErr (inj.resolve W i k) = false) :
    ∃ n, inj.resolve W i k = .error (.unimplemented n) := by
  cases hr : inj.resolve W i k with
  | ok p =>
    exfalso
    obtain ⟨v, k'⟩ := p
    have hsuc : Succeeds W inj i := ⟨inj.fuelBound, none, k, v, k', hr⟩
    rcases hmiss with ⟨hs, hg⟩ | ⟨j, c, pn, pt, hreq, himpl, hmem, hret, hnone⟩
    · obtain ⟨v', himpl⟩ := succeeds_impl_ok W inj i hsuc
      unfold Injector.implementation at himpl
      rw [hs, hg] at himpl
      cases himpl
    · have hsucj := requires_succeeds W inj i j hreq hsuc
      obtain ⟨t, hint, _⟩ := succeeds_inversion W inj j c himpl hsucj pn pt hmem hret
      unfold Injector.interface at hint
      rw [hnone] at hint
      cases hint
  | error e =>
    rcases resolveGo_error_shape W inj _ _ _ _ _ hr with ⟨n, he⟩ | ⟨n, ns, he⟩ | he
    · exact ⟨n, by rw [he]⟩
    · exfalso
      rw [he] at hr
      rw [hr] at hnc
      simp [isCyclicErr] at hnc
    · exfalso
      rw [he] at hr
      exact resolve_ne_outOfFuel W inj i k hr

theorem edgeB_edge (W : World) (inj : Injector) (x y : ClassId)
    (h : edgeB W inj x y = true) : Edge W inj x y := by
  unfold edgeB at h
  cases himpl : inj.implementation W x with
  | error e => rw [himpl] at h; cases h
  | ok impl =>
    rw [himpl] at h
    cases impl with
    | obj a c attrs => cases h
    | cls c =>
      rw [List.any_eq_true] at h
      obtain ⟨q, hq, hqt⟩ := h
      obtain ⟨pn, pt⟩ := q
      rw [Bool.and_eq_true] at hqt
      obtain ⟨hret, hmatch⟩ := hqt
      cases hint : inj.interface W pt with
      | error e => rw [hint] at hmatch; cases hmatch
      | ok t =>
        rw [hint] at hmatch
        have ht : t = y := by simpa using hmatch
        subst ht
        refine ⟨c, pn, pt, himpl, hq, ?_, hint⟩
        simpa using hret

theorem pathB_edgePath (W : World) (inj : Injector) :
    ∀ (p : List ClassId) (x y : ClassId), pathB W inj x p y = true → EdgePath W inj x p y := by
  intro p
  induction p with
  | nil => intro x y h; exact edgeB_edge W inj x y h
  | cons z zs ih =>
    intro x y h
    simp only [pathB, Bool.and_eq_true] at h
    exact ⟨edgeB_edge W inj x z h.1, ih z y h.2⟩

theorem chainE_of_append (W : World) (inj : Injector) :
    ∀ (l : List ClassId) (y : ClassId), ChainE W inj (l ++ [y]) → ChainE W inj l := by
  intro l
  induction l with
  | nil => intro y _; trivial
  | cons hd tl ih =>
    intro y h
    cases tl with
    | nil => trivial
    | cons z zs =>
      obtain ⟨he, hch⟩ := h
      exact ⟨he, ih y hch⟩

theorem chainE_append_one (W : World) (inj : Injector) :
    ∀ (l : List ClassId) (x y : ClassId), ChainE W inj l → l.getLast? = some x →
      Edge W inj x y → ChainE W inj (l ++ [y]) := by
  intro l
  induction l with
  | nil => intro x y _ hl; cases hl
  | cons hd tl ih =>
    intro x y hch hl he
    cases tl with
    | nil =>
      simp only [List.getLast?_singleton] at hl
      injection hl with hl'
      subst hl'
      exact ⟨he, trivial⟩
    | cons z zs =>
      obtain ⟨he1, hch'⟩ := hch
      have hl' : (z :: zs).getLast? = some x := by
        rw [← hl]
        exact List.getLast?_cons_cons.symm
      exact ⟨he1, ih x y hch' hl' he⟩

theorem chainE_last_edge (W : World) (inj : Injector) :
    ∀ (l : List ClassId) (x y : ClassId), ChainE W inj (l ++ [y]) →
      l.getLast? = some x → Edge W inj x y := by
  intro l
  induction l with
  | nil => intro x y _ hl; cases hl
  | cons hd tl ih =>
    intro x y hch hl
    cases tl with
    | nil =>
      simp only [List.getLast?_singleton] at hl
      injection hl with hl'
      subst hl'
      exact hch.1
    | cons z zs =>
      obtain ⟨_, hch'⟩ := hch
      have hl' : (z :: zs).getLast? = some x := by
        rw [← hl]
        exact List.getLast?_cons_cons.symm
      exact ih x y hch' hl'

theorem head?_append_left {α : Type} (l l2 : List α) (h : l ≠ []) :
    (l ++ l2).head? = l.head? := by
  cases l with
  | nil => exact absurd rfl h
  | cons hd tl => rfl

/-- A class-bound interface that resolves successfully under a stack cannot
already be on that stack — otherwise the cycle check would have fired. -/
theorem succeedsOn_not_mem (W : World) (inj : Injector) (x : ClassId) (st : List ClassId)
    (c : ClassId) (himpl : inj.implementation W x = .ok (.cls c))
    (h : SucceedsOn W inj x st) : x ∉ st := by
  obtain ⟨fuel, k, v, k', h⟩ := h
  cases fuel with
  | zero => simp [resolveGo] at h
  | succ fuel =>
    simp only [resolveGo, himpl] at h
    by_contra hmem
    simp only [if_pos hmem] at h
    cases h

/-- From a successful resolution, every dependency edge target resolves
successfully under the stack extended with the source. -/
theorem resolveGo_ok_edge (W : World) (inj : Injector) (fuel : Nat) (x : ClassId)
    (st : Option (List ClassId)) (k : Nat) (v : Value) (k' : Nat)
    (h : resolveGo W inj fuel x st k = .ok (v, k')) (y : ClassId) (he : Edge W inj x y) :
    SucceedsOn W inj y ((st.getD []) ++ [x]) := by
  obtain ⟨c, pn, pt, himpl, hmem, hret, hint⟩ := he
  cases fuel with
  | zero => simp [resolveGo] at h
  | succ fuel =>
    simp only [resolveGo, himpl] at h
    cases st with
    | none =>
      cases hp : resolveParams W inj (fun t k1 => resolveGo W inj fuel t (some [x]) k1)
          (W.classes c).ctorAnnots k with
      | error e => simp only [hp] at h; cases h
      | ok p =>
        obtain ⟨t, k1, v1, k2, hint', hres⟩ :=
          resolveParams_ok_mem W inj _ _ _ _ _ hp pn pt hmem hret
        rw [hint] at hint'
        injection hint' with ht
        subst ht
        exact ⟨fuel, k1, v1, k2, by simpa using hres⟩
    | some l =>
      by_cases hmem' : x ∈ l
      · simp only [if_pos hmem'] at h; cases h
      · simp only [if_neg hmem'] at h
        cases hp : resolveParams W inj
            (fun t k1 => resolveGo W inj fuel t (some (l ++ [x])) k1)
            (W.classes c).ctorAnnots k with
        | error e => simp only [hp] at h; cases h
        | ok p =>
          obtain ⟨t, k1, v1, k2, hint', hres⟩ :=
            resolveParams_ok_mem W inj _ _ _ _ _ hp pn pt hmem hret
          rw [hint] at hint'
          injection hint' with ht
          subst ht
          exact ⟨fuel, k1, v1, k2, by simpa using hres⟩

/-- Walking an edge path from a successfully resolving node yields success
under the accordingly extended stack. -/
theorem edgePath_succeedsOn (W : World) (inj : Injector) :
    ∀ (p : List ClassId) (x y : ClassId) (st : List ClassId),
      SucceedsOn W inj x st → EdgePath W inj x p y →
      SucceedsOn W inj y (st ++ [x] ++ p) := by
  intro p
  induction p with
  | nil =>
    intro x y st hs he
    obtain ⟨fuel, k, v, k', h⟩ := hs
    have := resolveGo_ok_edge W inj fuel x (some st) k v k' h y he
    simpa using this
  | cons z zs ih =>
    intro x y st hs hp
    obtain ⟨he, hp'⟩ := hp
    obtain ⟨fuel, k, v, k', h⟩ := hs
    have hz : SucceedsOn W inj z (st ++ [x]) := by
      have := resolveGo_ok_edge W inj fuel x (some st) k v k' h z he
      simpa using this
    have := ih z y (st ++ [x]) hz hp'
    simpa [List.append_assoc] using this

/-- A transitive self-dependency makes successful resolution impossible: the
depth-first walk follows the cycle path and would find the interface on
its own stack. -/
theorem selfdep_not_ok (W : World) (inj : Injector) (i : ClassId) (p : List ClassId)
    (hp : EdgePath W inj i p i) (k : Nat) (v : Value) (k' : Nat) :
    inj.resolve W i k ≠ .ok (v, k') := by
  intro h
  have himpl : ∃ c, inj.implementation W i = .ok (.cls c) := by
    cases p with
    | nil =>
      obtain ⟨c, pn, pt, himpl, _⟩ := hp
      exact ⟨c, himpl⟩
    | cons z zs =>
      obtain ⟨⟨c, pn, pt, himpl, _⟩, _⟩ := hp
      exact ⟨c, himpl⟩
  obtain ⟨c, himpl⟩ := himpl
  unfold Injector.resolve at h
  cases p with
  | nil =>
    have hs : SucceedsOn W inj i [i] := by
      have := resolveGo_ok_edge W inj _ i none k v k' h i hp
      simpa using this
    have := succeedsOn_not_mem W inj i [i] c himpl hs
    simp at this
  | cons z zs =>
    obtain ⟨he, hp'⟩ := hp
    have hz : SucceedsOn W inj z [i] := by
      have := resolveGo_ok_edge W inj _ i none k v k' h z he
      simpa using this
    have hi : SucceedsOn W inj i ([i] ++ [z] ++ zs) := edgePath_succeedsOn W inj zs z i [i] hz hp'
    have hnot := succeedsOn_not_mem W inj i ([i] ++ [z] ++ zs) c himpl hi
    simp at hnot

theorem gbB_spec (W : World) (inj : Injector) (hgb : gbB W inj = true) :
    ∀ c ∈ clsBindings inj, ∀ pn pt, (pn, pt) ∈ (W.classes c).ctorAnnots → pn ≠ "return" →
      ∃ t, inj.interface W pt = .ok t ∧ ∃ v, inj.implementation W t = .ok v := by
  intro c hc pn pt hmem hret
  unfold gbB at hgb
  rw [List.all_eq_true] at hgb
  have h1 := hgb c hc
  rw [List.all_eq_true] at h1
  have h2 := h1 (pn, pt) hmem
  rw [Bool.or_eq_true] at h2
  rcases h2 with h2 | h2
  · exact absurd (by simpa using h2) hret
  · cases hint : inj.interface W pt with
    | error e => simp only [hint] at h2; exact Bool.noConfusion h2
    | ok t =>
      simp only [hint] at h2
      cases himpl : inj.implementation W t with
      | error e => simp only [himpl] at h2; exact Bool.noConfusion h2
      | ok v => exact ⟨t, rfl, v, himpl⟩

theorem impl_cls_mem_bindings (W : World) (inj : Injector) (i c : ClassId)
    (h : inj.implementation W i = .ok (.cls c)) : c ∈ clsBindings inj := by
  unfold Injector.implementation at h
  unfold clsBindings
  cases hs : lookupList inj.scoped_services i with
  | some tv =>
    rw [hs] at h
    injection h with h'
    injection h' with h''
    subst h''
    exact List.mem_append_left _ (List.mem_map_of_mem Prod.snd (lookupList_mem _ _ _ hs))
  | none =>
    rw [hs] at h
    cases hg : lookupList inj.singleton_services i with
    | some av =>
      rw [hg] at h
      injection h with h'
      subst h'
      refine List.mem_append_right _ ?_
      rw [List.mem_filterMap]
      exact ⟨(i, .cls c), lookupList_mem _ _ _ hg, rfl⟩
    | none => rw [hg] at h; cases h

/-- In a globally bound registry, resolution of a bound interface never
fails with `UnimplementedError`: every lookup performed by the walk
succeeds. -/
theorem resolveGo_gb_no_unimplemented (W : World) (inj : Injector)
    (hgb : gbB W inj = true) :
    ∀ (fuel : Nat) (i : ClassId) (st : Option (List ClassId)) (k : Nat) (n : String),
      (∃ v, inj.implementation W i = .ok v) →
      resolveGo W inj fuel i st k ≠ .error (.unimplemented n) := by
  intro fuel
  induction fuel with
  | zero =>
    intro i st k n _ h
    simp only [resolveGo] at h
    injection h with h'
    cases h'
  | succ fuel ih =>
    intro i st k n hok h
    simp only [resolveGo] at h
    obtain ⟨v0, himpl0⟩ := hok
    simp only [himpl0] at h
    cases v0 with
    | obj a c attrs => cases h
    | cls c =>
      have fromParams : ∀ (ns : List ClassId),
          resolveParams W inj (fun t k1 => resolveGo W inj fuel t (some ns) k1)
            (W.classes c).ctorAnnots k = .error (.unimplemented n) → False := by
        intro ns hp
        rcases resolveParams_error_cases W inj _ _ _ _ hp with
          ⟨pn, pt, hmem, hret, hl⟩ | ⟨pn, pt, t, k1, hmem, hret, hint, he⟩
        · obtain ⟨t, hint, _⟩ := gbB_spec W inj hgb c
            (impl_cls_mem_bindings W inj i c himpl0) pn pt hmem hret
          rw [hint] at hl
          cases hl
        · obtain ⟨t', hint', v', himpl'⟩ := gbB_spec W inj hgb c
            (impl_cls_mem_bindings W inj i c himpl0) pn pt hmem hret
          rw [hint] at hint'
          injection hint' with ht
          subst ht
          exact ih t (some ns) k1 n ⟨v', himpl'⟩ he
      cases st with
      | none =>
        cases hp : resolveParams W inj (fun t k1 => resolveGo W inj fuel t (some [i]) k1)
            (W.classes c).ctorAnnots k with
        | error e =>
          simp only [hp] at h
          injection h with h'
          subst h'
          exact fromParams [i] hp
        | ok p =>
          obtain ⟨kwargs, kp⟩ := p
          simp only [hp] at h
          cases h
      | some l =>
        by_cases hmem : i ∈ l
        · simp only [if_pos hmem] at h
          injection h with h'
          cases h'
        · simp only [if_neg hmem] at h
          cases hp : resolveParams W inj
              (fun t k1 => resolveGo W inj fuel t (some (l ++ [i])) k1)
              (W.classes c).ctorAnnots k with
          | error e =>
            simp only [hp] at h
            injection h with h'
            subst h'
            exact fromParams (l ++ [i]) hp
          | ok p =>
            obtain ⟨kwargs, kp⟩ := p
            simp only [hp] at h
            cases h

/-- Shape of every `CyclicDependencyError`: the reported chain is the
resolver's active resolution path — a list of interfaces starting at the
root request and linked by dependency edges in traversal order — and the
interface named by the error occurs on that chain and is a dependency of
the chain's last element. -/
theorem resolveGo_cyclic_shape (W : World) (inj : Injector) :
    ∀ (fuel : Nat) (i : ClassId) (st : Option (List ClassId)) (k : Nat)
      (n : String) (ns : List String) (root : ClassId),
      resolveGo W inj fuel i st k = .error (.cyclicDependency n ns) →
      ((st = none ∧ root = i) ∨
        (∃ l, st = some l ∧ ChainE W inj (l ++ [i]) ∧ (l ++ [i]).head? = some root)) →
      ∃ m j last, ns = m.map (fun x => (W.classes x).name) ∧ m.head? = some root ∧
        ChainE W inj m ∧ j ∈ m ∧ m.getLast? = some last ∧ Edge W inj last j ∧
        n = (W.classes j).name := by
  intro fuel
  induction fuel with
  | zero =>
    intro i st k n ns root h _
    simp only [resolveGo] at h
    injection h with h'
    cases h'
  | succ fuel ih =>
    intro i st k n ns root h hinv
    simp only [resolveGo] at h
    cases himpl : inj.implementation W i with
    | error e =>
      simp only [himpl] at h
      injection h with h'
      subst h'
      have := implementation_error_shape W inj i _ himpl
      cases this
    | ok impl =>
      simp only [himpl] at h
      cases impl with
      | obj a c attrs => cases h
      | cls c =>
        cases st with
        | none =>
          have hroot : root = i := by
            rcases hinv with ⟨_, hr⟩ | ⟨l, hl, _⟩
            · exact hr
            · cases hl
          subst hroot
          cases hp : resolveParams W inj (fun t k1 => resolveGo W inj fuel t (some [root]) k1)
              (W.classes c).ctorAnnots k with
          | error e =>
            simp only [hp] at h
            injection h with h'
            subst h'
            rcases resolveParams_error_cases W inj _ _ _ _ hp with
              ⟨pn, pt, hmem, hret, hl⟩ | ⟨pn, pt, t, k1, hmem, hret, hint, he⟩
            · obtain ⟨n', heq⟩ := interface_error_shape W inj pt _ hl
              cases heq
            · refine ih t (some [root]) k1 n ns root he (Or.inr ⟨[root], rfl, ?_, rfl⟩)
              exact ⟨⟨c, pn, pt, himpl, hmem, hret, hint⟩, trivial⟩
          | ok p =>
            obtain ⟨kwargs, kp⟩ := p
            simp only [hp] at h
            cases h
        | some l =>
          obtain ⟨hch, hhead⟩ : ChainE W inj (l ++ [i]) ∧ (l ++ [i]).head? = some root := by
            rcases hinv with ⟨hl, _⟩ | ⟨l', heq, hch, hhead⟩
            · cases hl
            · injection heq with heq'
              subst heq'
              exact ⟨hch, hhead⟩
          by_cases hmem : i ∈ l
          · simp only [if_pos hmem] at h
            injection h with h'
            injection h' with h1 h2
            have hne : l ≠ [] := List.ne_nil_of_mem hmem
            obtain ⟨last, hlast⟩ := Option.isSome_iff_exists.mp (List.getLast?_isSome.mpr hne)
            refine ⟨l, i, last, h2.symm, ?_, chainE_of_append W inj l i hch, hmem, hlast,
              chainE_last_edge W inj l last i hch hlast, h1.symm⟩
            rw [← hhead]
            exact (head?_append_left l [i] hne).symm
          · simp only [if_neg hmem] at h
            cases hp : resolveParams W inj
                (fun t k1 => resolveGo W inj fuel t (some (l ++ [i])) k1)
                (W.classes c).ctorAnnots k with
            | error e =>
              simp only [hp] at h
              injection h with h'
              subst h'
              rcases resolveParams_error_cases W inj _ _ _ _ hp with
                ⟨pn, pt, hmem', hret, hl⟩ | ⟨pn, pt, t, k1, hmem', hret, hint, he⟩
              · obtain ⟨n', heq⟩ := interface_error_shape W inj pt _ hl
                cases heq
              · refine ih t (some (l ++ [i])) k1 n ns root he
                  (Or.inr ⟨l ++ [i], rfl, ?_, ?_⟩)
                · exact chainE_append_one W inj (l ++ [i]) i t hch (List.getLast?_concat l)
                    ⟨c, pn, pt, himpl, hmem', hret, hint⟩
                · rw [head?_append_left (l ++ [i]) [t] (by simp)]
                  exact hhead
            | ok p =>
              obtain ⟨kwargs, kp⟩ := p
              simp only [hp] at h
              cases h

/-! ## Registration: extraction lemmas -/

theorem lookupList_append_isSome {α β : Type} [BEq α] (l1 l2 : List (α × β)) (a : α)
    (h : (lookupList l1 a).isSome) : (lookupList (l1 ++ l2) a).isSome := by
  cases hl : lookupList l1 a with
  | none => rw [hl] at h; cases h
  | some b => rw [lookupList_append_some l1 l2 a b hl]; rfl

theorem register_scopedS_ok (W : World) (inj : Injector) (i impl : ClassId)
    (u : Unit) (inj' : Injector)
    (h : inj.register_scopedS W i impl = (.ok u, inj')) :
    issubclass W impl i = true ∧
    lookupList inj.interfaces (W.classes i).name = none ∧
    inj' = { inj with
      interfaces := inj.interfaces ++ [((W.classes i).name, i)],
      scoped_services := inj.scoped_services ++ [(i, impl)] } := by
  unfold Injector.register_scopedS Injector.register_interface at h
  by_cases hsub : issubclass W impl i = true
  · rw [if_neg (not_not_intro hsub)] at h
    by_cases hns : (lookupList inj.interfaces (W.classes i).name).isSome
    · rw [if_pos hns] at h
      injection h with h1 h2
      cases h1
    · rw [if_neg hns] at h
      injection h with h1 h2
      exact ⟨hsub, Option.not_isSome_iff_eq_none.mp hns, h2.symm⟩
  · rw [if_pos hsub] at h
    injection h with h1 h2
    cases h1

theorem register_singletonS_ok (W : World) (inj : Injector) (i : ClassId) (s : Value)
    (u : Unit) (inj' : Injector)
    (h : inj.register_singletonS W i s = (.ok u, inj')) :
    isinstance W s i = true ∧
    lookupList inj.interfaces (W.classes i).name = none ∧
    inj' = { inj with
      interfaces := inj.interfaces ++ [((W.classes i).name, i)],
      singleton_services := inj.singleton_services ++ [(i, s)] } := by
  unfold Injector.register_singletonS Injector.register_interface at h
  by_cases hinst : isinstance W s i = true
  · rw [if_neg (not_not_intro hinst)] at h
    by_cases hns : (lookupList inj.interfaces (W.classes i).name).isSome
    · rw [if_pos hns] at h
      injection h with h1 h2
      cases h1
    · rw [if_neg hns] at h
      injection h with h1 h2
      exact ⟨hinst, Option.not_isSome_iff_eq_none.mp hns, h2.symm⟩
  · rw [if_pos hinst] at h
    injection h with h1 h2
    cases h1

theorem register_scopedS_error (W : World) (inj : Injector) (i impl : ClassId)
    (e : InjectorError) (inj' : Injector)
    (h : inj.register_scopedS W i impl = (.error e, inj')) : inj' = inj := by
  unfold Injector.register_scopedS Injector.register_interface at h
  by_cases hsub : issubclass W impl i = true
  · rw [if_neg (not_not_intro hsub)] at h
    by_cases hns : (lookupList inj.interfaces (W.classes i).name).isSome
    · rw [if_pos hns] at h
      injection h with h1 h2
      exact h2.symm
    · rw [if_neg hns] at h
      injection h with h1 h2
      cases h1
  · rw [if_pos hsub] at h
    injection h with h1 h2
    exact h2.symm

theorem register_singletonS_error (W : World) (inj : Injector) (i : ClassId) (s : Value)
    (e : InjectorError) (inj' : Injector)
    (h : inj.register_singletonS W i s = (.error e, inj')) : inj' = inj := by
  unfold Injector.register_singletonS Injector.register_interface at h
  by_cases hinst : isinstance W s i = true
  · rw [if_neg (not_not_intro hinst)] at h
    by_cases hns : (lookupList inj.interfaces (W.classes i).name).isSome
    · rw [if_pos hns] at h
      injection h with h1 h2
      exact h2.symm
    · rw [if_neg hns] at h
      injection h with h1 h2
      cases h1
  · rw [if_pos hinst] at h
    injection h with h1 h2
    exact h2.symm

theorem regInv_init (W : World) : RegInv W Injector.init := by
  refine ⟨List.nodup_nil, ?_, ?_, ?_, List.nodup_nil, List.nodup_nil, ?_⟩ <;>
    intro p hp <;> cases hp

theorem regInv_preserved_scoped (W : World) (inj : Injector) (i impl : ClassId)
    (hinv : RegInv W inj)
    (hnone : lookupList inj.interfaces (W.classes i).name = none) :
    RegInv W { inj with
      interfaces := inj.interfaces ++ [((W.classes i).name, i)],
      scoped_services := inj.scoped_services ++ [(i, impl)] } := by
  obtain ⟨h1, h2, h3, h4, h5, h6, h7⟩ := hinv
  have hinotk : lookupList inj.scoped_services i = none := by
    cases hs : lookupList inj.scoped_services i with
    | none => rfl
    | some tv =>
      have := h3 (i, tv) (lookupList_mem _ _ _ hs)
      rw [hnone] at this
      cases this
  refine ⟨?_, ?_, ?_, ?_, ?_, h6, ?_⟩
  · rw [List.map_append]
    rw [List.nodup_append]
    refine ⟨h1, List.nodup_singleton _, ?_⟩
    intro n hn hn'
    simp only [List.map_cons, List.map_nil, List.mem_singleton] at hn'
    subst hn'
    have hsm := (lookupList_isSome_iff inj.interfaces ((W.classes i).name)).mpr hn
    rw [hnone] at hsm
    cases hsm
  · intro p hp
    rcases List.mem_append.mp hp with hp | hp
    · obtain ⟨hn, hb⟩ := h2 p hp
      refine ⟨hn, ?_⟩
      rcases hb with hb | hb
      · exact Or.inl (lookupList_append_isSome _ _ _ hb)
      · exact Or.inr hb
    · simp only [List.mem_singleton] at hp
      subst hp
      refine ⟨rfl, Or.inl ?_⟩
      rw [lookupList_append_none _ _ _ hinotk]
      simp [lookupList]
  · intro p hp
    rcases List.mem_append.mp hp with hp | hp
    · exact lookupList_append_some _ _ _ _ (h3 p hp)
    · simp only [List.mem_singleton] at hp
      subst hp
      rw [lookupList_append_none _ _ _ hnone]
      simp [lookupList]
  · intro p hp
    exact lookupList_append_some _ _ _ _ (h4 p hp)
  · rw [List.map_append]
    rw [List.nodup_append]
    refine ⟨h5, List.nodup_singleton _, ?_⟩
    intro x hx hx'
    simp only [List.map_cons, List.map_nil, List.mem_singleton] at hx'
    subst hx'
    rw [List.mem_map] at hx
    obtain ⟨p, hp, hpx⟩ := hx
    have := h3 p hp
    rw [hpx] at this
    rw [hnone] at this
    cases this
  · intro p hp
    rcases List.mem_append.mp hp with hp | hp
    · exact h7 p hp
    · simp only [List.mem_singleton] at hp
      subst hp
      cases hg : lookupList inj.singleton_services i with
      | none => rfl
      | some s =>
        have := h4 (i, s) (lookupList_mem _ _ _ hg)
        rw [hnone] at this
        cases this

theorem regInv_preserved_singleton (W : World) (inj : Injector) (i : ClassId) (s : Value)
    (hinv : RegInv W inj)
    (hnone : lookupList inj.interfaces (W.classes i).name = none) :
    RegInv W { inj with
      interfaces := inj.interfaces ++ [((W.classes i).name, i)],
      singleton_services := inj.singleton_services ++ [(i, s)] } := by
  obtain ⟨h1, h2, h3, h4, h5, h6, h7⟩ := hinv
  have hinotk : lookupList inj.singleton_services i = none := by
    cases hg : lookupList inj.singleton_services i with
    | none => rfl
    | some av =>
      have := h4 (i, av) (lookupList_mem _ _ _ hg)
      rw [hnone] at this
      cases this
  have hinotsc : lookupList inj.scoped_services i = none := by
    cases hs : lookupList inj.scoped_services i with
    | none => rfl
    | some tv =>
      have := h3 (i, tv) (lookupList_mem _ _ _ hs)
      rw [hnone] at this
      cases this
  refine ⟨?_, ?_, ?_, ?_, h5, ?_, ?_⟩
  · rw [List.map_append]
    rw [List.nodup_append]
    refine ⟨h1, List.nodup_singleton _, ?_⟩
    intro n hn hn'
    simp only [List.map_cons, List.map_nil, List.mem_singleton] at hn'
    subst hn'
    have hsm := (lookupList_isSome_iff inj.interfaces ((W.classes i).name)).mpr hn
    rw [hnone] at hsm
    cases hsm
  · intro p hp
    rcases List.mem_append.mp hp with hp | hp
    · obtain ⟨hn, hb⟩ := h2 p hp
      refine ⟨hn, ?_⟩
      rcases hb with hb | hb
      · exact Or.inl hb
      · exact Or.inr (lookupList_append_isSome _ _ _ hb)
    · simp only [List.mem_singleton] at hp
      subst hp
      refine ⟨rfl, Or.inr ?_⟩
      rw [lookupList_append_none _ _ _ hinotk]
      simp [lookupList]
  · intro p hp
    exact lookupList_append_some _ _ _ _ (h3 p hp)
  · intro p hp
    rcases List.mem_append.mp hp with hp | hp
    · exact lookupList_append_some _ _ _ _ (h4 p hp)
    · simp only [List.mem_singleton] at hp
      subst hp
      rw [lookupList_append_none _ _ _ hnone]
      simp [lookupList]
  · rw [List.map_append]
    rw [List.nodup_append]
    refine ⟨h6, List.nodup_singleton _, ?_⟩
    intro x hx hx'
    simp only [List.map_cons, List.map_nil, List.mem_singleton] at hx'
    subst hx'
    rw [List.mem_map] at hx
    obtain ⟨p, hp, hpx⟩ := hx
    have := h4 p hp
    rw [hpx] at this
    rw [hnone] at this
    cases this
  · intro p hp
    rw [lookupList_append_none _ _ _ (h7 p hp)]
    simp only [lookupList]
    have hne : ¬(i == p.1) = true := by
      intro hb
      have hip : i = p.1 := by simpa using hb
      have hlp := h3 p hp
      rw [← hip] at hlp
      rw [hnone] at hlp
      cases hlp
    rw [if_neg hne]

theorem registerS_error_atomic (W : World) (inj : Injector) (i : ClassId) (a : RegArg)
    (e : InjectorError) (inj' : Injector)
    (h : inj.registerS W i a = (.error e, inj')) : inj' = inj := by
  cases a with
  | scopedA impl => exact register_scopedS_error W inj i impl e inj' h
  | singletonA s => exact register_singletonS_error W inj i s e inj' h

theorem reachable_regInv (W : World) : ∀ inj, Reachable W inj → RegInv W inj := by
  intro inj h
  induction h with
  | init => exact regInv_init W
  | step inj0 i a hr ih =>
    cases a with
    | scopedA impl =>
      simp only [Injector.registerS]
      rcases hres : inj0.register_scopedS W i impl with ⟨r, inj'⟩
      cases r with
      | ok u =>
        obtain ⟨_, hnone, heq⟩ := register_scopedS_ok W inj0 i impl u inj' hres
        show RegInv W inj'
        rw [heq]
        exact regInv_preserved_scoped W inj0 i impl ih hnone
      | error e =>
        show RegInv W inj'
        rw [register_scopedS_error W inj0 i impl e inj' hres]
        exact ih
    | singletonA s =>
      simp only [Injector.registerS]
      rcases hres : inj0.register_singletonS W i s with ⟨r, inj'⟩
      cases r with
      | ok u =>
        obtain ⟨_, hnone, heq⟩ := register_singletonS_ok W inj0 i s u inj' hres
        show RegInv W inj'
        rw [heq]
        exact regInv_preserved_singleton W inj0 i s ih hnone
      | error e =>
        show RegInv W inj'
        rw [register_singletonS_error W inj0 i s e inj' hres]
        exact ih

/-! ## Remaining helper lemmas -/

theorem mem_lookupList_isSome {α β : Type} [BEq α] [LawfulBEq α] :
    ∀ (l : List (α × β)) (a : α) (b : β), (a, b) ∈ l → (lookupList l a).isSome := by
  intro l
  induction l with
  | nil => intro a b h; cases h
  | cons hd tl ih =>
    intro a b h
    obtain ⟨key, val⟩ := hd
    simp only [lookupList]
    by_cases hk : key == a
    · rw [if_pos hk]; rfl
    · rw [if_neg hk]
      rcases List.mem_cons.mp h with heq | htl
      · injection heq with h1 h2
        subst h1
        simp at hk
      · exact ih a b htl

theorem regInv_no_binding_named (W : World) (inj : Injector) (hinv : RegInv W inj)
    (n : String) (hnone : lookupList inj.interfaces n = none) :
    (∀ p ∈ inj.scoped_services, (W.classes p.1).name ≠ n) ∧
    (∀ p ∈ inj.singleton_services, (W.classes p.1).name ≠ n) := by
  obtain ⟨_, _, h3, h4, _, _, _⟩ := hinv
  constructor
  · intro p hp heq
    have := h3 p hp
    rw [heq, hnone] at this
    cases this
  · intro p hp heq
    have := h4 p hp
    rw [heq, hnone] at this
    cases this

theorem invokeTimes_replicate (cl : Closure) :
    ∀ (n k0 : Nat), cl.invokeTimes n k0 =
      (List.replicate n ⟨cl.fn.tag, cl.kwargs⟩, k0) := by
  intro n
  induction n with
  | zero => intro k0; rfl
  | succ n ih =>
    intro k0
    simp only [Closure.invokeTimes, Closure.invoke, ih, List.replicate]

theorem registerS_ok_name_present (W : World) (inj : Injector) (i : ClassId) (a : RegArg)
    (u : Unit) (inj' : Injector) (h : inj.registerS W i a = (.ok u, inj')) :
    lookupList inj'.interfaces (W.classes i).name = some i := by
  cases a with
  | scopedA impl =>
    obtain ⟨_, hnone, heq⟩ := register_scopedS_ok W inj i impl u inj' h
    rw [heq]
    show lookupList (inj.interfaces ++ [((W.classes i).name, i)]) (W.classes i).name = some i
    rw [lookupList_append_none _ _ _ hnone]
    simp [lookupList]
  | singletonA s =>
    obtain ⟨_, hnone, heq⟩ := register_singletonS_ok W inj i s u inj' h
    rw [heq]
    show lookupList (inj.interfaces ++ [((W.classes i).name, i)]) (W.classes i).name = some i
    rw [lookupList_append_none _ _ _ hnone]
    simp [lookupList]

theorem registerS_present_conforms_implemented (W : World) (inj' : Injector) (i : ClassId)
    (b : RegArg) (hpres : (lookupList inj'.interfaces (W.classes i).name).isSome)
    (hconf : b.conforms W i = true) :
    inj'.registerS W i b = (.error (.implemented (W.classes i).name), inj') := by
  cases b with
  | scopedA impl =>
    show inj'.register_scopedS W i impl = _
    unfold Injector.register_scopedS Injector.register_interface
    rw [if_neg (not_not_intro (by exact hconf))]
    rw [if_pos hpres]
  | singletonA s =>
    show inj'.register_singletonS W i s = _
    unfold Injector.register_singletonS Injector.register_interface
    rw [if_neg (not_not_intro (by exact hconf))]
    rw [if_pos hpres]

/-! ## Claim theorems -/

/-- Claim C4, counterexample: the second registration of `I` does not always
fail with `AlreadyRegistered` — when the second implementation does not
conform to the interface, the conformance check (which the source runs
first) fails with `ImplementationInterfaceMismatchError` instead. -/
theorem C4_counterexample :
    Injector.init.register_scopedS c4W 0 1 = (.ok (), c4Inj) ∧
    (c4Inj.register_scopedS c4W 0 2).1 = .error (.mismatch "Bad" "I") ∧
    (c4Inj.register_scopedS c4W 0 2).1 ≠ .error (.implemented "I") := by
  refine ⟨rfl, rfl, ?_⟩
  intro h
  rw [show (c4Inj.register_scopedS c4W 0 2).1 = .error (.mismatch "Bad" "I") from rfl] at h
  injection h with h'
  cases h'

/-- Claim C4 (corrected): registration is one-shot per interface identity
across both binding tables — after any successful registration of `I`
(scoped or singleton), a second registration of `I` of either kind whose
implementation or instance conforms to `I` fails with `AlreadyRegistered`,
and leaves the registry unchanged.  (A non-conforming second registration
fails with `ImplementationMismatch` instead, because the source checks
conformance before exclusivity.) -/
theorem C4_amended_registration_exclusivity (W : World) (inj : Injector) (i : ClassId)
    (a b : RegArg) (u : Unit) (inj' : Injector)
    (hfirst : inj.registerS W i a = (.ok u, inj'))
    (hconf : b.conforms W i = true) :
    inj'.registerS W i b = (.error (.implemented (W.classes i).name), inj') := by
  have hpres : (lookupList inj'.interfaces (W.classes i).name).isSome := by
    rw [registerS_ok_name_present W inj i a u inj' hfirst]
    rfl
  exact registerS_present_conforms_implemented W inj' i b hpres hconf

/-- Witness for C4: a singleton registration of `I` followed by a conforming
scoped registration of `I` fails with `AlreadyRegistered` and leaves the
state unchanged. -/
theorem C4_witness :
    ((Injector.init.registerS c4W 0 (.singletonA (.obj 5 1 []))).2).registerS c4W 0 (.scopedA 1) =
      (.error (.implemented (c4W.classes 0).name),
        (Injector.init.registerS c4W 0 (.singletonA (.obj 5 1 []))).2) :=
  C4_amended_registration_exclusivity c4W Injector.init 0 (.singletonA (.obj 5 1 []))
    (.scopedA 1) () _ rfl rfl

/-- Claim C5, counterexample: a singleton instance that is itself a type is
not returned as-is.  `Widget` (a class object) is accepted by
`register_singleton` for `object`, but `resolve(object)` treats it as a
scoped implementation descriptor and returns a freshly constructed
instance, invoking the constructor (the allocation counter advances). -/
theorem C5_counterexample :
    (Injector.init.register_singletonS c10W 0 (.cls 2)).1 = .ok () ∧
    lookupList c10Inj.singleton_services 0 = some (.cls 2) ∧
    c10Inj.resolve c10W 0 0 = .ok (.obj 1 2 [("dep", .obj 0 4 [])], 2) ∧
    c10Inj.resolve c10W 0 0 ≠ .ok (.cls 2, 0) := by
  refine ⟨rfl, rfl, rfl, ?_⟩
  intro h
  rw [show c10Inj.resolve c10W 0 0 = .ok (.obj 1 2 [("dep", .obj 0 4 [])], 2) from rfl] at h
  injection h with h'
  injection h' with h1 h2
  cases h1

/-- Claim C5 (corrected): for every interface whose binding is a singleton
instance that is not itself a type (the scoped table having no entry for
it), every `resolve` call returns exactly the stored instance with the
allocation counter untouched (no constructor invoked, no dependency
resolved), and it does so even with the interface on the in-progress
resolution stack (no cycle check is reached).  A singleton instance that
is itself a type is instead treated as a scoped implementation descriptor
(see the C10 theorem). -/
theorem C5_amended_singleton_identity (W : World) (inj : Injector) (i : ClassId)
    (a0 c0 : Nat) (at0 : List (String × Value)) (k : Nat)
    (hs : lookupList inj.scoped_services i = none)
    (hg : lookupList inj.singleton_services i = some (.obj a0 c0 at0)) :
    inj.resolve W i k = .ok (.obj a0 c0 at0, k) ∧
    (∀ fuel l, fuel ≠ 0 → resolveGo W inj fuel i (some l) k = .ok (.obj a0 c0 at0, k)) := by
  have himpl : inj.implementation W i = .ok (.obj a0 c0 at0) := by
    unfold Injector.implementation
    rw [hs, hg]
  constructor
  · obtain ⟨m, hm⟩ : ∃ m, inj.fuelBound = m + 1 := ⟨_, rfl⟩
    unfold Injector.resolve
    rw [hm]
    simp only [resolveGo, himpl]
  · intro fuel l hf
    obtain ⟨m, hm⟩ : ∃ m, fuel = m + 1 := ⟨fuel - 1, by omega⟩
    rw [hm]
    simp only [resolveGo, himpl]

/-- Witness for C5 (amended): a `Config`-style singleton instance is
returned as-is, twice, with the counter untouched, even mid-stack. -/
theorem C5_witness :
    (c5Inj.resolve c5W 2 5 = .ok (.obj 77 2 [], 5) ∧
      (∀ fuel l, fuel ≠ 0 → resolveGo c5W c5Inj fuel 2 (some l) 5 = .ok (.obj 77 2 [], 5))) :=
  C5_amended_singleton_identity c5W c5Inj 2 77 2 [] 5 rfl rfl

/-- Claim C7 (confirmed): `resolve_callable` rejects non-invocables with the
`NotCallable` error (`ValueError` in the source); on an invocable it
resolves the annotated parameters once, at `resolve_callable` time, and
returns a closure over the original invocable and the resolved arguments:
every subsequent invocation calls the invocable with those same argument
instances, never advancing the allocation counter (no constructor runs,
nothing is re-resolved). -/
theorem C7_callable_resolution_reuse (W : World) (inj : Injector) (fn : Arg) (k : Nat) :
    (fn.callable = false →
      inj.resolve_callable W fn k = .error (.valueError "The argument must be callable")) ∧
    (∀ cl k', inj.resolve_callable W fn k = .ok (cl, k') →
      cl.fn = fn ∧
      ∀ n k0, cl.invokeTimes n k0 = (List.replicate n ⟨fn.tag, cl.kwargs⟩, k0)) := by
  constructor
  · intro hnc
    unfold Injector.resolve_callable
    rw [if_pos (by rw [hnc]; exact Bool.false_ne_true)]
  · intro cl k' h
    unfold Injector.resolve_callable at h
    by_cases hc : fn.callable = true
    · rw [if_neg (not_not_intro hc)] at h
      cases hl : resolveArgsLoop W inj fn.annots k with
      | error e => simp only [hl] at h; cases h
      | ok p =>
        obtain ⟨kwargs, k2⟩ := p
        simp only [hl] at h
        injection h with h'
        injection h' with h1 h2
        subst h1
        exact ⟨rfl, fun n k0 => invokeTimes_replicate _ n k0⟩
    · rw [if_pos hc] at h
      cases h

/-- Witness for C7: resolving the parameters of an invocable over the test
services, then invoking the closure three times, reuses the same resolved
arguments and never advances the allocation counter. -/
theorem C7_witness :
    ({ fn := ⟨true, 42, [("complex_service", .str "ComplexService")]⟩,
       kwargs := [("complex_service",
         .obj 2 3 [("simpleone_service", .obj 0 5 []), ("simpletwo_service", .obj 1 7 [])])] :
        Closure}.fn = ⟨true, 42, [("complex_service", .str "ComplexService")]⟩) ∧
    ∀ n k0,
      ({ fn := ⟨true, 42, [("complex_service", .str "ComplexService")]⟩,
         kwargs := [("complex_service",
           .obj 2 3 [("simpleone_service", .obj 0 5 []), ("simpletwo_service", .obj 1 7 [])])] :
          Closure}).invokeTimes n k0 =
        (List.replicate n
          ⟨42, [("complex_service",
            .obj 2 3 [("simpleone_service", .obj 0 5 []), ("simpletwo_service", .obj 1 7 [])])]⟩,
         k0) :=
  (C7_callable_resolution_reuse testW testInj
      ⟨true, 42, [("complex_service", .str "ComplexService")]⟩ 0).2 _ 3 rfl

/-- Claim C8 (confirmed): resolution never mutates the registry — an API
call to `resolve` or `resolve_callable`, whether it returns a value or an
error, leaves the interfaces index, the scoped binding table and the
singleton binding table exactly unchanged. -/
theorem C8_resolution_never_mutates (W : World) (inj : Injector) (k : Nat)
    (i : ClassId) (fn : Arg) :
    ((applyApi W (.doResolve i) (inj, k)).2.1.interfaces = inj.interfaces ∧
      (applyApi W (.doResolve i) (inj, k)).2.1.scoped_services = inj.scoped_services ∧
      (applyApi W (.doResolve i) (inj, k)).2.1.singleton_services = inj.singleton_services) ∧
    ((applyApi W (.doResolveCallable fn) (inj, k)).2.1.interfaces = inj.interfaces ∧
      (applyApi W (.doResolveCallable fn) (inj, k)).2.1.scoped_services = inj.scoped_services ∧
      (applyApi W (.doResolveCallable fn) (inj, k)).2.1.singleton_services
        = inj.singleton_services) := by
  constructor
  · simp only [applyApi]
    cases inj.resolve W i k with
    | ok p =>
      obtain ⟨v, k'⟩ := p
      exact ⟨rfl, rfl, rfl⟩
    | error e => exact ⟨rfl, rfl, rfl⟩
  · simp only [applyApi]
    cases inj.resolve_callable W fn k with
    | ok p =>
      obtain ⟨cl, k'⟩ := p
      exact ⟨rfl, rfl, rfl⟩
    | error e => exact ⟨rfl, rfl, rfl⟩

/-- Claim C10 (confirmed): `resolve` distinguishes singleton from scoped
bindings only by testing whether the looked-up binding is a type.  A class
object registered through `register_singleton` (accepted because
`isinstance(Widget, object)` holds) is therefore not returned as-is:
resolving it performs the cycle check (it raises `CyclicDependency` when
the interface is on the stack) and instantiates the class with resolved
constructor arguments. -/
theorem C10_type_valued_singleton :
    (Injector.init.register_singletonS c10W 0 (.cls 2)).1 = .ok () ∧
    ((Injector.init.register_singletonS c10W 0 (.cls 2)).2).register_scopedS c10W 3 4
      = (.ok (), c10Inj) ∧
    c10Inj.resolve c10W 0 0 = .ok (.obj 1 2 [("dep", .obj 0 4 [])], 2) ∧
    c10Inj.resolve c10W 0 0 ≠ .ok (.cls 2, 0) ∧
    resolveGo c10W c10Inj c10Inj.fuelBound 0 (some [0]) 0 =
      .error (.cyclicDependency "object" ["object"]) := by
  refine ⟨rfl, rfl, rfl, ?_, rfl⟩
  intro h
  rw [show c10Inj.resolve c10W 0 0 = .ok (.obj 1 2 [("dep", .obj 0 4 [])], 2) from rfl] at h
  injection h with h'
  injection h' with h1 h2
  cases h1

/-- Claim C6 (confirmed): scoped freshness.  Two successive successful
`resolve` calls for a scoped-bound interface construct two brand-new
instances of the bound implementation: both roots are freshly allocated
within their own call's counter interval, so the instances are distinct,
and every address inside the first result that is not a stored singleton
address lies below the interval of the second call — the dependency
subtrees are resolved independently, nothing is cached across calls. -/
theorem C6_scoped_freshness (W : World) (inj : Injector) (i impl : ClassId)
    (k k1 k2 : Nat) (v1 v2 : Value)
    (hsc : lookupList inj.scoped_services i = some impl)
    (h1 : inj.resolve W i k = .ok (v1, k1))
    (h2 : inj.resolve W i k1 = .ok (v2, k2)) :
    ∃ a1 at1 a2 at2, v1 = .obj a1 impl at1 ∧ v2 = .obj a2 impl at2 ∧
      k ≤ a1 ∧ a1 < k1 ∧ k1 ≤ a2 ∧ a2 < k2 ∧ v1 ≠ v2 ∧
      (∀ x ∈ v1.addrs, x < k1 ∨ x ∈ storedAddrs inj) ∧
      (∀ x ∈ v2.addrs, k1 ≤ x ∨ x ∈ storedAddrs inj) := by
  obtain ⟨at1, kp1, hv1, hk1, hle1⟩ := resolve_scoped_ok_shape W inj i impl k v1 k1 hsc h1
  obtain ⟨at2, kp2, hv2, hk2, hle2⟩ := resolve_scoped_ok_shape W inj i impl k1 v2 k2 hsc h2
  obtain ⟨_, hr1⟩ := resolveGo_range W inj inj.fuelBound i none k v1 k1 h1
  obtain ⟨_, hr2⟩ := resolveGo_range W inj inj.fuelBound i none k1 v2 k2 h2
  refine ⟨kp1, at1, kp2, at2, hv1, hv2, hle1, by omega, hle2, by omega, ?_, ?_, ?_⟩
  · intro heq
    rw [hv1, hv2] at heq
    injection heq with e1 e2 e3
    omega
  · intro x hx
    rcases hr1 x hx with ⟨_, hlt⟩ | hst
    · exact Or.inl hlt
    · exact Or.inr hst
  · intro x hx
    rcases hr2 x hx with ⟨hge, _⟩ | hst
    · exact Or.inl hge
    · exact Or.inr hst

/-- Witness for C6: resolving `ComplexService` twice in the test registry
yields two distinct freshly-built trees. -/
theorem C6_witness :
    ∃ a1 at1 a2 at2,
      (Value.obj 2 3 [("simpleone_service", .obj 0 5 []), ("simpletwo_service", .obj 1 7 [])])
        = .obj a1 3 at1 ∧
      (Value.obj 5 3 [("simpleone_service", .obj 3 5 []), ("simpletwo_service", .obj 4 7 [])])
        = .obj a2 3 at2 ∧
      0 ≤ a1 ∧ a1 < 3 ∧ 3 ≤ a2 ∧ a2 < 6 ∧
      (Value.obj 2 3 [("simpleone_service", .obj 0 5 []), ("simpletwo_service", .obj 1 7 [])])
        ≠ .obj 5 3 [("simpleone_service", .obj 3 5 []), ("simpletwo_service", .obj 4 7 [])] ∧
      (∀ x ∈ (Value.obj 2 3 [("simpleone_service", .obj 0 5 []),
          ("simpletwo_service", .obj 1 7 [])]).addrs, x < 3 ∨ x ∈ storedAddrs testInj) ∧
      (∀ x ∈ (Value.obj 5 3 [("simpleone_service", .obj 3 5 []),
          ("simpletwo_service", .obj 4 7 [])]).addrs, 3 ≤ x ∨ x ∈ storedAddrs testInj) :=
  C6_scoped_freshness testW testInj 2 3 0 3 6 _ _ rfl rfl rfl

/-- Claim C9 (confirmed): in every injector state reachable by any sequence
of successful or failing registrations from a fresh injector, the
interface names in the scoped table are pairwise distinct, those in the
singleton table are pairwise distinct, the two name sets are disjoint, the
key set of the interfaces index is exactly the union of the two name sets,
and a failing registration leaves all three structures unchanged. -/
theorem C9_registry_consistency (W : World) (inj : Injector) (h : Reachable W inj) :
    (inj.scoped_services.map (fun p => (W.classes p.1).name)).Nodup ∧
    (inj.singleton_services.map (fun p => (W.classes p.1).name)).Nodup ∧
    (∀ n, n ∈ inj.scoped_services.map (fun p => (W.classes p.1).name) →
      n ∉ inj.singleton_services.map (fun p => (W.classes p.1).name)) ∧
    (∀ n, (lookupList inj.interfaces n).isSome ↔
      (n ∈ inj.scoped_services.map (fun p => (W.classes p.1).name) ∨
        n ∈ inj.singleton_services.map (fun p => (W.classes p.1).name))) ∧
    (∀ i a e inj', inj.registerS W i a = (.error e, inj') → inj' = inj) := by
  obtain ⟨h1, h2, h3, h4, h5, h6, h7⟩ := reachable_regInv W inj h
  refine ⟨?_, ?_, ?_, ?_, fun i a e inj' he => registerS_error_atomic W inj i a e inj' he⟩
  · rw [show inj.scoped_services.map (fun p => (W.classes p.1).name) =
        (inj.scoped_services.map Prod.fst).map (fun x => (W.classes x).name) by
      rw [List.map_map]; rfl]
    refine List.Nodup.map_on ?_ h5
    intro x hx y hy hxy
    rw [List.mem_map] at hx hy
    obtain ⟨p, hp, hpx⟩ := hx
    obtain ⟨q, hq, hqy⟩ := hy
    have hxl := h3 p hp
    have hyl := h3 q hq
    rw [hpx] at hxl
    rw [hqy] at hyl
    rw [hxy] at hxl
    rw [hxl] at hyl
    injection hyl with he
  · rw [show inj.singleton_services.map (fun p => (W.classes p.1).name) =
        (inj.singleton_services.map Prod.fst).map (fun x => (W.classes x).name) by
      rw [List.map_map]; rfl]
    refine List.Nodup.map_on ?_ h6
    intro x hx y hy hxy
    rw [List.mem_map] at hx hy
    obtain ⟨p, hp, hpx⟩ := hx
    obtain ⟨q, hq, hqy⟩ := hy
    have hxl := h4 p hp
    have hyl := h4 q hq
    rw [hpx] at hxl
    rw [hqy] at hyl
    rw [hxy] at hxl
    rw [hxl] at hyl
    injection hyl with he
  · intro n hns hng
    rw [List.mem_map] at hns hng
    obtain ⟨p, hp, hpn⟩ := hns
    obtain ⟨q, hq, hqn⟩ := hng
    have hpl := h3 p hp
    have hql := h4 q hq
    rw [hpn] at hpl
    rw [hqn] at hql
    rw [hpl] at hql
    injection hql with he
    have hq' : (q.1, q.2) ∈ inj.singleton_services := by simpa using hq
    have hsg := mem_lookupList_isSome inj.singleton_services q.1 q.2 hq'
    have h7p := h7 p hp
    rw [he] at h7p
    rw [h7p] at hsg
    simp at hsg
  · intro n
    constructor
    · intro hs
      obtain ⟨t, ht⟩ := Option.isSome_iff_exists.mp hs
      have hmem := lookupList_mem _ _ _ ht
      obtain ⟨hn, hb⟩ := h2 (n, t) hmem
      rcases hb with hb | hb
      · left
        obtain ⟨c, hc⟩ := Option.isSome_iff_exists.mp hb
        rw [List.mem_map]
        exact ⟨(t, c), lookupList_mem _ _ _ hc, hn.symm⟩
      · right
        obtain ⟨s, hc⟩ := Option.isSome_iff_exists.mp hb
        rw [List.mem_map]
        exact ⟨(t, s), lookupList_mem _ _ _ hc, hn.symm⟩
    · intro hor
      rcases hor with hm | hm
      · rw [List.mem_map] at hm
        obtain ⟨p, hp, hpn⟩ := hm
        have hl := h3 p hp
        rw [hpn] at hl
        rw [hl]
        rfl
      · rw [List.mem_map] at hm
        obtain ⟨p, hp, hpn⟩ := hm
        have hl := h4 p hp
        rw [hpn] at hl
        rw [hl]
        rfl

/-- Witness for C9: the invariant holds in the concrete registry built by
two registrations of the test services. -/
theorem C9_witness :
    (((((Injector.init.registerS testW 2 (.scopedA 3)).2).registerS testW 4
        (.scopedA 5)).2).scoped_services.map (fun p => (testW.classes p.1).name)).Nodup ∧
    (((((Injector.init.registerS testW 2 (.scopedA 3)).2).registerS testW 4
        (.scopedA 5)).2).singleton_services.map (fun p => (testW.classes p.1).name)).Nodup ∧
    (∀ n, n ∈ ((((Injector.init.registerS testW 2 (.scopedA 3)).2).registerS testW 4
        (.scopedA 5)).2).scoped_services.map (fun p => (testW.classes p.1).name) →
      n ∉ ((((Injector.init.registerS testW 2 (.scopedA 3)).2).registerS testW 4
        (.scopedA 5)).2).singleton_services.map (fun p => (testW.classes p.1).name)) ∧
    (∀ n, (lookupList ((((Injector.init.registerS testW 2 (.scopedA 3)).2).registerS testW 4
        (.scopedA 5)).2).interfaces n).isSome ↔
      (n ∈ ((((Injector.init.registerS testW 2 (.scopedA 3)).2).registerS testW 4
        (.scopedA 5)).2).scoped_services.map (fun p => (testW.classes p.1).name) ∨
        n ∈ ((((Injector.init.registerS testW 2 (.scopedA 3)).2).registerS testW 4
        (.scopedA 5)).2).singleton_services.map (fun p => (testW.classes p.1).name))) ∧
    (∀ i a e inj', ((((Injector.init.registerS testW 2 (.scopedA 3)).2).registerS testW 4
        (.scopedA 5)).2).registerS testW i a = (.error e, inj') →
      inj' = (((Injector.init.registerS testW 2 (.scopedA 3)).2).registerS testW 4
        (.scopedA 5)).2) :=
  C9_registry_consistency testW _
    (Reachable.step _ 4 (.scopedA 5) (Reachable.step _ 2 (.scopedA 3) Reachable.init))

/-- Claim C1, counterexample: the "if and only if" fails.  In a registry
where `AImpl` implements `A` and depends first on `A` itself and then on
the unregistered `B`, the interface `B` is transitively required and has
no binding, yet `resolve(A)` does not fail with `Unresolved`: the cycle on
`A` is encountered first, so it fails with `CyclicDependency`. -/
theorem C1_counterexample :
    c1Inj.resolve c1W 0 0 = .error (.cyclicDependency "A" ["A"]) ∧
    isUnimplementedErr (c1Inj.resolve c1W 0 0) = false ∧
    MissingRequired c1W c1Inj 0 := by
  refine ⟨rfl, rfl, ?_⟩
  exact Or.inr ⟨0, 1, "b", .str "B", Requires.refl 0, rfl, by decide, by decide, rfl⟩

/-- Claim C1 (corrected): resolution completeness, amended.  Soundness: when
`resolve(I)` fails with `Unresolved(n)`, the name `n` designates an
interface that is `I` itself or transitively required in `I`'s dependency
chain and that has neither a scoped nor a singleton binding (the error
names the specific missing interface, not the root request).  Conversely,
when some interface in `I`'s dependency chain is missing and the failure
is not a `CyclicDependency` detected before the missing interface is
reached, `resolve(I)` fails with `Unresolved` naming a missing interface.
(When a cycle is encountered first, `resolve` fails with
`CyclicDependency` instead — see the counterexample.) -/
theorem C1_amended_resolution_completeness (W : World) (inj : Injector)
    (hinv : RegInv W inj) (i : ClassId) (k : Nat) :
    (∀ n, inj.resolve W i k = .error (.unimplemented n) →
      ((∃ j, Requires W inj i j ∧ n = (W.classes j).name ∧
          lookupList inj.scoped_services j = none ∧
          lookupList inj.singleton_services j = none) ∨
        (∃ j c pn pt, Requires W inj i j ∧ inj.implementation W j = .ok (.cls c) ∧
          (pn, pt) ∈ (W.classes c).ctorAnnots ∧ pn ≠ "return" ∧ pt.nameOf W = n ∧
          (∀ p ∈ inj.scoped_services, (W.classes p.1).name ≠ n) ∧
          (∀ p ∈ inj.singleton_services, (W.classes p.1).name ≠ n)))) ∧
    (MissingRequired W inj i → isCyclicErr (inj.resolve W i k) = false →
      ∃ n, inj.resolve W i k = .error (.unimplemented n)) := by
  constructor
  · intro n h
    rcases resolveGo_unimplemented_sound W inj _ _ _ _ _ h with
      hL | ⟨j, c, pn, pt, hreq, himpl, hmem, hret, hn, hnone⟩
    · exact Or.inl hL
    · obtain ⟨hsc, hsg⟩ := regInv_no_binding_named W inj hinv n hnone
      exact Or.inr ⟨j, c, pn, pt, hreq, himpl, hmem, hret, hn, hsc, hsg⟩
  · exact resolve_unimplemented_complete W inj i k

/-- Witness for C1: in the registry where `ComplexService` and
`SimpleOneService` are registered but `SimpleTwoService` is not, the
completeness direction yields an `Unresolved` failure. -/
theorem C1_witness :
    ∃ n, partialInj.resolve testW 2 0 = .error (.unimplemented n) :=
  (C1_amended_resolution_completeness testW partialInj (by unfold RegInv; decide) 2 0).2
    (Or.inr ⟨2, 3, "simpletwo_service", .str "SimpleTwoService", Requires.refl 2, rfl,
      by decide, by decide, rfl⟩)
    rfl

/-- Claim C2, counterexample: a registry containing a scoped binding whose
implementation depends directly on its own interface need not fail with
`CyclicDependency` — `AImpl` depends first on the unregistered `B` and
then on `A`, and resolution fails with `Unresolved(B)` before the cycle is
reached. -/
theorem C2_counterexample :
    pathB c2W c2Inj 0 [] 0 = true ∧
    c2Inj.resolve c2W 0 0 = .error (.unimplemented "B") ∧
    isCyclicErr (c2Inj.resolve c2W 0 0) = false := by
  exact ⟨rfl, rfl, rfl⟩

/-- Claim C2 (corrected): cycle detection, amended with the proviso that
every constructor annotation of every registered implementation resolves
to a bound interface (otherwise an `Unresolved` failure can preempt the
cycle — see the counterexample).  Under that proviso, whenever a scoped
binding's implementation depends transitively on its own interface,
`resolve` of that interface fails with `CyclicDependency`, and the chain
carried by the error is the active resolution chain in traversal order: it
starts at the root request, consecutive entries are dependency edges, the
interface named by the error occurs on the chain, and the chain's last
entry depends directly on it. -/
theorem C2_amended_cycle_detection (W : World) (inj : Injector) (i : ClassId)
    (p : List ClassId) (k : Nat)
    (hgb : gbB W inj = true) (hpath : pathB W inj i p i = true) :
    ∃ n ns m j last, inj.resolve W i k = .error (.cyclicDependency n ns) ∧
      ns = m.map (fun x => (W.classes x).name) ∧ m.head? = some i ∧
      ChainE W inj m ∧ j ∈ m ∧ m.getLast? = some last ∧ Edge W inj last j ∧
      n = (W.classes j).name := by
  have hep := pathB_edgePath W inj p i i hpath
  have himplok : ∃ v, inj.implementation W i = .ok v := by
    cases p with
    | nil =>
      obtain ⟨c, pn, pt, himpl, _⟩ := hep
      exact ⟨_, himpl⟩
    | cons z zs =>
      obtain ⟨⟨c, pn, pt, himpl, _⟩, _⟩ := hep
      exact ⟨_, himpl⟩
  cases hr : inj.resolve W i k with
  | ok q =>
    obtain ⟨v, k'⟩ := q
    exact absurd hr (selfdep_not_ok W inj i p hep k v k')
  | error e =>
    rcases resolveGo_error_shape W inj _ _ _ _ _ hr with ⟨n, he⟩ | ⟨n, ns, he⟩ | he
    · subst he
      exact absurd hr (resolveGo_gb_no_unimplemented W inj hgb _ _ _ _ _ himplok)
    · subst he
      obtain ⟨m, j, last, hns, hhead, hch, hjm, hlast, hedge, hn⟩ :=
        resolveGo_cyclic_shape W inj _ _ _ _ _ _ i hr (Or.inl ⟨rfl, rfl⟩)
      exact ⟨n, ns, m, j, last, rfl, hns, hhead, hch, hjm, hlast, hedge, hn⟩
    · subst he
      exact absurd hr (resolve_ne_outOfFuel W inj i k)

/-- Witness for C2: the repository's own cyclic test case
(`CyclicService -> CyclicServiceImpl(cyclic_service: CyclicService)`)
fails with `CyclicDependency` and a chain in traversal order. -/
theorem C2_witness :
    ∃ n ns m j last, cyclicInj.resolve testW 8 0 = .error (.cyclicDependency n ns) ∧
      ns = m.map (fun x => (testW.classes x).name) ∧ m.head? = some 8 ∧
      ChainE testW cyclicInj m ∧ j ∈ m ∧ m.getLast? = some last ∧
      Edge testW cyclicInj last j ∧ n = (testW.classes j).name :=
  C2_amended_cycle_detection testW cyclicInj 8 [] 0 (by decide) (by decide)

/-- Claim C3 (confirmed): diamond tolerance.  In the diamond registry —
scoped `B` and `C` each depending on `D`, scoped `A` depending on `B` and
`C` (arbitrary distinct interface names, arbitrary starting counter) — the
four registrations succeed, `resolve(A)` succeeds (in particular it raises
no `CyclicDependency`), and the resulting graph holds two independently
built instances of `D`'s implementation with distinct identities: one
under `B` (address `k`), one under `C` (address `k+2`). -/
theorem C3_diamond_tolerance (nA nB nC nD nAI nBI nCI nDI : String) (k : Nat)
    (hBA : nB ≠ nA) (hCA : nC ≠ nA) (hCB : nC ≠ nB)
    (hDA : nD ≠ nA) (hDB : nD ≠ nB) (hDC : nD ≠ nC) :
    ((Injector.init.register_scoped (diamondW nA nB nC nD nAI nBI nCI nDI) 0 10).bind fun s1 =>
      (s1.register_scoped (diamondW nA nB nC nD nAI nBI nCI nDI) 1 11).bind fun s2 =>
      (s2.register_scoped (diamondW nA nB nC nD nAI nBI nCI nDI) 2 12).bind fun s3 =>
      s3.register_scoped (diamondW nA nB nC nD nAI nBI nCI nDI) 3 13) =
      .ok (diamondInj nA nB nC nD) ∧
    (diamondInj nA nB nC nD).resolve (diamondW nA nB nC nD nAI nBI nCI nDI) 0 k =
      .ok (.obj (k+4) 10
        [("b", .obj (k+1) 11 [("d", .obj k 13 [])]),
         ("c", .obj (k+3) 12 [("d", .obj (k+2) 13 [])])], k+5) ∧
    Value.obj k 13 [] ≠ Value.obj (k+2) 13 [] := by
  have eAB : (nA == nB) = false := beq_eq_false_iff_ne.mpr (Ne.symm hBA)
  have eAC : (nA == nC) = false := beq_eq_false_iff_ne.mpr (Ne.symm hCA)
  have eBC : (nB == nC) = false := beq_eq_false_iff_ne.mpr (Ne.symm hCB)
  have eAD : (nA == nD) = false := beq_eq_false_iff_ne.mpr (Ne.symm hDA)
  have eBD : (nB == nD) = false := beq_eq_false_iff_ne.mpr (Ne.symm hDB)
  have eCD : (nC == nD) = false := beq_eq_false_iff_ne.mpr (Ne.symm hDC)
  refine ⟨?_, ?_, ?_⟩
  · simp [Injector.register_scoped, Injector.register_scopedS, Injector.register_interface,
      Injector.init, diamondW, diamondInj, issubclass, lookupList, Except.bind,
      eAB, eAC, eBC, eAD, eBD, eCD]
  · simp [Injector.resolve, Injector.fuelBound, diamondInj, diamondW, resolveGo,
      resolveParams, Injector.implementation, Injector.interface, Annot.nameOf,
      lookupList, eAB, eAC, eBC, eAD, eBD, eCD]
  · intro h
    injection h with h1
    omega

/-- Witness for C3: the diamond with concrete names and counter `0`. -/
theorem C3_witness :
    ((Injector.init.register_scoped (diamondW "A" "B" "C" "D" "AI" "BI" "CI" "DI") 0 10).bind
        fun s1 =>
      (s1.register_scoped (diamondW "A" "B" "C" "D" "AI" "BI" "CI" "DI") 1 11).bind fun s2 =>
      (s2.register_scoped (diamondW "A" "B" "C" "D" "AI" "BI" "CI" "DI") 2 12).bind fun s3 =>
      s3.register_scoped (diamondW "A" "B" "C" "D" "AI" "BI" "CI" "DI") 3 13) =
      .ok (diamondInj "A" "B" "C" "D") ∧
    (diamondInj "A" "B" "C" "D").resolve (diamondW "A" "B" "C" "D" "AI" "BI" "CI" "DI") 0 0 =
      .ok (.obj 4 10
        [("b", .obj 1 11 [("d", .obj 0 13 [])]),
         ("c", .obj 3 12 [("d", .obj 2 13 [])])], 5) ∧
    Value.obj 0 13 [] ≠ Value.obj 2 13 [] :=
  C3_diamond_tolerance "A" "B" "C" "D" "AI" "BI" "CI" "DI" 0
    (by decide) (by decide) (by decide) (by decide) (by decide) (by decide)
